import Mathlib

/-!
Verification development for the nitr0g3n reconnaissance engine.

Go strings are embedded as lists of characters (`GoStr`); Go maps and sets
are embedded as association lists / membership lists; Go slices are lists.
`time.Time` and `time.Duration` values are embedded as integer nanoseconds,
and the rate limiter's `float64` token arithmetic as exact rationals.
Each definition is a shallow embedding of the correspondingly named Go
function; file and line references are given in the doc comments.
-/

/-- A Go string, embedded as its list of characters. -/
abbrev GoStr := List Char

/-- Model of `unicode.IsSpace` restricted to the ASCII whitespace that the
repository's inputs contain (space, tab, CR, LF). -/
def goSpace (c : Char) : Bool := c.isWhitespace

/-- Model of `strings.TrimSpace`: drop leading and trailing whitespace. -/
def trimSpace (s : GoStr) : GoStr :=
  ((s.dropWhile goSpace).reverse.dropWhile goSpace).reverse

/-- Model of `strings.ToLower` (ASCII range, which is all the code relies on). -/
def toLowerStr (s : GoStr) : GoStr := s.map Char.toLower

/-- Model of `strings.ToUpper` (ASCII range). -/
def toUpperStr (s : GoStr) : GoStr := s.map Char.toUpper

/-- Model of `strings.TrimSuffix(s, ".")`. -/
def trimDotSuffix (s : GoStr) : GoStr :=
  if s.getLast? = some '.' then s.dropLast else s

/-- Model of `strings.EqualFold` (ASCII case-insensitive equality). -/
def equalFold (a b : GoStr) : Bool := toLowerStr a = toLowerStr b

/-- Model of `strings.Join(parts, sep)`. -/
def joinSep (sep : GoStr) : List GoStr → GoStr
  | [] => []
  | [x] => x
  | x :: xs => x ++ sep ++ joinSep sep xs

/-- Model of `strings.Split(s, string(sep))` for a one-character separator. -/
def splitChar (sep : Char) : GoStr → List GoStr
  | [] => [[]]
  | c :: rest =>
    let r := splitChar sep rest
    if c = sep then [] :: r else (c :: r.headD []) :: r.tail

/-- Byte-wise (code-point-wise) strict comparison of Go strings, as used by
`sort.Strings` / `<` on Go strings. -/
def strLtb : GoStr → GoStr → Bool
  | [], [] => false
  | [], _ :: _ => true
  | _ :: _, [] => false
  | c :: cs, d :: ds =>
    if c < d then true else if d < c then false else strLtb cs ds

/-- The non-strict order on Go strings induced by `strLtb`. -/
def strLeProp (a b : GoStr) : Prop := strLtb b a = false

instance : DecidableRel strLeProp :=
  fun a b => (inferInstance : Decidable (strLtb b a = false))

/-- `uniqueSorted` from `resolver/resolver.go` lines 319-338 (identical copy in
the streaming resolver source): trim each value, drop empties and duplicates in
order, then sort ascending.  The `seen` set is the accumulator. -/
def dedupTrimAux (seen : List GoStr) : List GoStr → List GoStr
  | [] => []
  | v :: vs =>
    let v' := trimSpace v
    if v' = [] then dedupTrimAux seen vs
    else if v' ∈ seen then dedupTrimAux seen vs
    else v' :: dedupTrimAux (v' :: seen) vs

/-- `uniqueSorted(values)` from `resolver/resolver.go` lines 319-338.
(`sort.Strings` is modelled by insertion sort on the byte-wise order.) -/
def uniqueSorted (values : List GoStr) : List GoStr :=
  if values = [] then values
  else List.insertionSort strLeProp (dedupTrimAux [] values)

/-- `dedupeSortedStrings(values)` from `cmd/nitro/main.go` lines 1012-1034: same
trim/dedup/sort pass as `uniqueSorted`, returning nil (the empty list) when no
value survives. -/
def dedupeSortedStrings (values : List GoStr) : List GoStr :=
  if values = [] then []
  else
    let result := dedupTrimAux [] values
    if result = [] then []
    else List.insertionSort strLeProp result

/-- Convenience conversion from a Lean string literal to a `GoStr`. -/
def gs (s : String) : GoStr := s.data

/-- The strict order on Go strings induced by `strLtb`. -/
def strLtProp (a b : GoStr) : Prop := strLtb a b = true

/-- Decimal digit character, for modelling `strconv.Itoa` / `fmt` `%d`. -/
def digitChar (d : Nat) : Char := Char.ofNat (48 + d)

/-- Fuel-driven decimal rendering helper. -/
def natCharsAux : Nat → Nat → List Char
  | 0, _ => []
  | fuel + 1, n => if n < 10 then [digitChar n] else natCharsAux fuel (n / 10) ++ [digitChar (n % 10)]

/-- Model of `strconv.Itoa` / `fmt.Sprintf` `%d` on a natural number. -/
def natChars (n : Nat) : GoStr := natCharsAux (n + 1) n

/-- Lower-case hex digit character, for modelling `encoding/hex`. -/
def hexDigitChar (d : Nat) : Char :=
  if d < 10 then Char.ofNat (48 + d) else Char.ofNat (87 + d)

/-- Model of `hex.EncodeToString` over a byte list. -/
def hexEncode (bytes : List Nat) : GoStr :=
  bytes.flatMap (fun b => [hexDigitChar (b / 16), hexDigitChar (b % 16)])

namespace Resolver

/-!
Shallow embedding of `resolver/resolver.go` (`Resolve`, lines 70-139) and of
the identical `Resolve` in the streaming resolver source. The five network
lookups of the underlying `dnsResolver` interface are embedded as an oracle
record holding each lookup's response: the code under verification is the
aggregation logic that runs on top of those responses.
-/

/-- One address returned by `LookupIPAddr`: `none` models a nil `addr.IP`
(skipped by the code); otherwise the flag says whether `addr.IP.To4()` is
non-nil, paired with the rendered address string. -/
abbrev IPAddrEntry := Option (Bool × GoStr)

/-- The responses of the five `dnsResolver` lookups for one hostname. -/
structure LookupOracle where
  ipAddrs : Except GoStr (List IPAddrEntry)
  cname : Except GoStr GoStr
  mx : Except GoStr (List (Nat × GoStr))
  txt : Except GoStr (List GoStr)
  ns : Except GoStr (List GoStr)

/-- `lookupIPAddresses` (resolver.go lines 190-217): split the returned
addresses into A and AAAA render strings and `uniqueSorted` each. -/
def lookupIPAddresses (o : LookupOracle) : Except GoStr (List GoStr × List GoStr) :=
  match o.ipAddrs with
  | .error e => .error e
  | .ok addrs =>
    let aRecords := addrs.filterMap (fun a =>
      match a with
      | some (true, s) => some s
      | _ => none)
    let aaaaRecords := addrs.filterMap (fun a =>
      match a with
      | some (false, s) => some s
      | _ => none)
    .ok (uniqueSorted aRecords, uniqueSorted aaaaRecords)

/-- `lookupCNAME` (resolver.go lines 219-239): strip the trailing dot and
return the empty string when the target equals the queried hostname. -/
def lookupCNAME (hostname : GoStr) (o : LookupOracle) : Except GoStr GoStr :=
  match o.cname with
  | .error e => .error e
  | .ok c =>
    let c := trimDotSuffix c
    if equalFold c hostname then .ok [] else .ok c

/-- `lookupMX` (resolver.go lines 241-262): render as "pref host" and
`uniqueSorted`. -/
def lookupMX (o : LookupOracle) : Except GoStr (List GoStr) :=
  match o.mx with
  | .error e => .error e
  | .ok records =>
    .ok (uniqueSorted (records.map (fun r => natChars r.1 ++ ' ' :: trimDotSuffix r.2)))

/-- `lookupTXT` (resolver.go lines 264-284). -/
def lookupTXT (o : LookupOracle) : Except GoStr (List GoStr) :=
  match o.txt with
  | .error e => .error e
  | .ok records => .ok (uniqueSorted records)

/-- `lookupNS` (resolver.go lines 286-307). -/
def lookupNS (o : LookupOracle) : Except GoStr (List GoStr) :=
  match o.ns with
  | .error e => .error e
  | .ok records => .ok (uniqueSorted (records.map trimDotSuffix))

/-- The result structure of `Resolve` (resolver.go lines 26-31), with the Go
map `DNSRecords` embedded as an association list with distinct keys. -/
structure Result where
  subdomain : GoStr
  ipAddresses : List GoStr
  dnsRecords : List (GoStr × List GoStr)
  err : Option GoStr
deriving DecidableEq

/-- Lookup of a record type in the embedded `DNSRecords` map, defaulting to
the empty list when the key is absent. -/
def findRecords (m : List (GoStr × List GoStr)) (k : GoStr) : List GoStr :=
  ((m.find? (fun kv => kv.1 = k)).map Prod.snd).getD []

/-- `aRecords` as used by `Resolve` (empty on lookup failure). -/
def aRecordsOf (o : LookupOracle) : List GoStr :=
  match lookupIPAddresses o with
  | .ok p => p.1
  | .error _ => []

/-- `aaaaRecords` as used by `Resolve` (empty on lookup failure). -/
def aaaaRecordsOf (o : LookupOracle) : List GoStr :=
  match lookupIPAddresses o with
  | .ok p => p.2
  | .error _ => []

/-- The CNAME map entry added by `Resolve` lines 101-105. -/
def cnameEntry (hostname : GoStr) (o : LookupOracle) : List (GoStr × List GoStr) :=
  match lookupCNAME hostname o with
  | .ok c => if c ≠ [] then [(gs "CNAME", [c])] else []
  | .error _ => []

/-- The MX map entry added by `Resolve` lines 107-111. -/
def mxEntry (o : LookupOracle) : List (GoStr × List GoStr) :=
  match lookupMX o with
  | .ok l => if l ≠ [] then [(gs "MX", l)] else []
  | .error _ => []

/-- The TXT map entry added by `Resolve` lines 113-117. -/
def txtEntry (o : LookupOracle) : List (GoStr × List GoStr) :=
  match lookupTXT o with
  | .ok l => if l ≠ [] then [(gs "TXT", l)] else []
  | .error _ => []

/-- The NS map entry added by `Resolve` lines 119-123. -/
def nsEntry (o : LookupOracle) : List (GoStr × List GoStr) :=
  match lookupNS o with
  | .ok l => if l ≠ [] then [(gs "NS", l)] else []
  | .error _ => []

/-- The `resolutionErrs` accumulation of `Resolve` lines 85-123: the error
message of each failing lookup, in program order. -/
def resolutionErrs (hostname : GoStr) (o : LookupOracle) : List GoStr :=
  (match lookupIPAddresses o with
   | .error e => [e]
   | .ok _ => [])
  ++ (match lookupCNAME hostname o with
      | .error e => [e]
      | .ok _ => [])
  ++ (match lookupMX o with
      | .error e => [e]
      | .ok _ => [])
  ++ (match lookupTXT o with
      | .error e => [e]
      | .ok _ => [])
  ++ (match lookupNS o with
      | .error e => [e]
      | .ok _ => [])

/-- `Resolve` (resolver.go lines 70-139): trim the hostname, run the six typed
lookups, aggregate the records, `uniqueSorted` every list, and report an error
only when some lookup failed and nothing at all was produced. -/
def Resolve (hostname : GoStr) (o : LookupOracle) : Result :=
  let hostname := trimSpace hostname
  if hostname = [] then
    { subdomain := hostname, ipAddresses := [], dnsRecords := [],
      err := some (gs "empty hostname") }
  else
    let aR := aRecordsOf o
    let aaaaR := aaaaRecordsOf o
    let ips := (if aR ≠ [] then aR else []) ++ (if aaaaR ≠ [] then aaaaR else [])
    let recs := (if aR ≠ [] then [(gs "A", aR)] else [])
      ++ (if aaaaR ≠ [] then [(gs "AAAA", aaaaR)] else [])
      ++ cnameEntry hostname o ++ mxEntry o ++ txtEntry o ++ nsEntry o
    let ipAddresses := if ips ≠ [] then uniqueSorted ips else ips
    let dnsRecords := recs.map (fun kv => (kv.1, uniqueSorted kv.2))
    let errs := resolutionErrs hostname o
    { subdomain := hostname, ipAddresses := ipAddresses, dnsRecords := dnsRecords,
      err := if errs ≠ [] ∧ ipAddresses = [] ∧ dnsRecords = [] then
        some (joinSep (gs "; ") errs) else none }

end Resolver

namespace Dnsclient

/-!
Shallow embedding of the TTL cache from `resolver/dnsclient.go` (lines
547-653). `time.Time` values are embedded as integer nanoseconds;
`now.After(t)` is `now > t`. The Go map of entries is embedded as an
association list with distinct keys (maintained by insert-or-replace); the
"one arbitrary entry" that `evictOneLocked` removes (the first key yielded by
Go's map iteration) is modelled as the first list entry.
-/

/-- A cached record set (dnsclient.go lines 553-556). A `none` element models
a nil `dns.RR`. -/
structure CacheEntry where
  records : List (Option GoStr)
  expiry : Int
deriving DecidableEq

/-- The TTL cache (dnsclient.go lines 547-551). -/
structure DNSCache where
  entries : List (GoStr × CacheEntry)
  maxEntries : Nat
deriving DecidableEq

/-- `cacheKey` (dnsclient.go lines 651-653). -/
def cacheKey (host : GoStr) (qtype : Nat) : GoStr :=
  host ++ '|' :: natChars qtype

/-- `cloneRecords` (dnsclient.go lines 640-649): drop nil records; the deep
copy is the identity under value semantics. -/
def cloneRecords (records : List (Option GoStr)) : List (Option GoStr) :=
  records.filter (fun r => r.isSome)

/-- `newDNSCache` (dnsclient.go lines 558-566). -/
def newDNSCache (size : Int) : DNSCache :=
  if size ≤ 0 then { entries := [], maxEntries := 1 }
  else { entries := [], maxEntries := size.toNat }

/-- `DNSCache.Get` (dnsclient.go lines 568-593): a hit whose expiry is
strictly before `now` is deleted and reported as a miss; otherwise the cloned
records are returned. -/
def dnsCacheGet (c : DNSCache) (host : GoStr) (qtype : Nat) (now : Int) :
    Option (List (Option GoStr)) × DNSCache :=
  let key := cacheKey host qtype
  match c.entries.find? (fun kv => kv.1 = key) with
  | none => (none, c)
  | some kv =>
    if now > kv.2.expiry then
      (none, { c with entries := c.entries.filter (fun kv2 => ¬ kv2.1 = key) })
    else
      (some (cloneRecords kv.2.records), c)

/-- One second in the nanosecond embedding of `time.Duration`. -/
def nsecond : Int := 1000000000

/-- `evictExpiredLocked` (dnsclient.go lines 621-631). -/
def evictExpiredLocked (entries : List (GoStr × CacheEntry)) (now : Int) :
    List (GoStr × CacheEntry) :=
  entries.filter (fun kv => ¬ now > kv.2.expiry)

/-- `evictOneLocked` (dnsclient.go lines 633-638): delete one arbitrary entry
(modelled as the first). -/
def evictOneLocked (entries : List (GoStr × CacheEntry)) : List (GoStr × CacheEntry) :=
  entries.tail

/-- Insert-or-replace into the association-list embedding of a Go map. -/
def assocInsert {α : Type} (m : List (GoStr × α)) (k : GoStr) (v : α) : List (GoStr × α) :=
  if m.any (fun kv => kv.1 = k) then
    m.map (fun kv => if kv.1 = k then (k, v) else kv)
  else m ++ [(k, v)]

/-- The eviction phase of `DNSCache.Set` (dnsclient.go lines 611-616): when at
capacity, first drop all expired entries, then (if still at capacity) one
arbitrary entry. -/
def evictForWrite (entries : List (GoStr × CacheEntry)) (maxEntries : Nat) (now : Int) :
    List (GoStr × CacheEntry) :=
  if entries.length ≥ maxEntries then
    let e1 := evictExpiredLocked entries now
    if e1.length ≥ maxEntries then evictOneLocked e1 else e1
  else entries

/-- `DNSCache.Set` (dnsclient.go lines 595-619): ignore empty or non-positive
TTL writes, floor the TTL at one second, evict when at capacity, then store. -/
def dnsCacheSet (c : DNSCache) (host : GoStr) (qtype : Nat)
    (records : List (Option GoStr)) (ttl : Int) (now : Int) : DNSCache :=
  if ttl ≤ 0 ∨ records = [] then c
  else
    let ttl := if ttl < nsecond then nsecond else ttl
    let key := cacheKey host qtype
    let entry : CacheEntry := { records := cloneRecords records, expiry := now + ttl }
    { c with entries := assocInsert (evictForWrite c.entries c.maxEntries now) key entry }

end Dnsclient

namespace Filters

/-!
Shallow embedding of the wildcard-profile code from the filters package source
(`WildcardProfile`, `DetectWildcard` accumulation, `Matches`, `ipv4Prefix`,
`ipv6Prefix`). `net.ParseIP` is modelled by an explicit parser for
dotted-quad IPv4 and colon-grouped IPv6 (with one `::` compression and an
optional trailing dotted quad); zone suffixes are out of scope.
-/

/-- A parsed IP address: either four IPv4 octets or sixteen IPv6 bytes. -/
inductive IPAddrM where
  | v4 (a b c d : Nat)
  | v6 (bytes : List Nat)
deriving DecidableEq

/-- Parse one dotted-quad field (Go `dtoi` plus the `ParseIP` octet rules:
decimal digits only, value at most 255, no leading zero). -/
def parseOctet (f : GoStr) : Option Nat :=
  if f = [] then none
  else if ¬ f.all Char.isDigit then none
  else if f.length > 1 ∧ f.head? = some '0' then none
  else
    let n := f.foldl (fun acc c => acc * 10 + (c.toNat - 48)) 0
    if n > 255 then none else some n

/-- Parse a dotted-quad IPv4 address. -/
def parseIPv4 (s : GoStr) : Option (Nat × Nat × Nat × Nat) :=
  match (splitChar '.' s).map parseOctet with
  | [some a, some b, some c, some d] => some (a, b, c, d)
  | _ => none

/-- Parse a 1-4 digit hexadecimal IPv6 group. -/
def parseHexGroup (g : GoStr) : Option Nat :=
  if g = [] ∨ g.length > 4 then none
  else if ¬ g.all (fun c => c.isDigit ∨ ('a' ≤ c ∧ c ≤ 'f') ∨ ('A' ≤ c ∧ c ≤ 'F')) then none
  else some (g.foldl (fun acc c =>
    acc * 16 + (if c.isDigit then c.toNat - 48
                else if 'a' ≤ c then c.toNat - 87 else c.toNat - 55)) 0)

/-- Locate the single empty group of an IPv6 group list, if any. -/
def splitOnEmpty : List GoStr → Option (List GoStr × List GoStr)
  | [] => none
  | [] :: rest => if [] ∈ rest then none else some ([], rest)
  | g :: rest => (splitOnEmpty rest).map (fun p => (g :: p.1, p.2))

/-- Classify an IPv6 group list into the groups left and right of the `::`
compression (if present). -/
def detectParts (l : List GoStr) : Option (List GoStr × Bool × List GoStr) :=
  if [] ∉ l then some (l, false, [])
  else if l = [[], [], []] then some ([], true, [])
  else
    match l with
    | [] :: [] :: rest =>
      if rest = [] ∨ [] ∈ rest then none else some ([], true, rest)
    | _ =>
      match l.reverse with
      | [] :: [] :: revLeft =>
        if revLeft = [] ∨ [] ∈ revLeft then none else some (revLeft.reverse, true, [])
      | _ =>
        match splitOnEmpty l with
        | some (left, right) =>
          if left = [] ∨ right = [] then none else some (left, true, right)
        | none => none

/-- Convert a run of IPv6 groups to bytes; a dotted quad is allowed only as
the final group (and only when `v4ok` is set). -/
def groupsToBytes (v4ok : Bool) : List GoStr → Option (List Nat)
  | [] => some []
  | [g] =>
    if v4ok ∧ '.' ∈ g then
      (parseIPv4 g).map (fun q => [q.1, q.2.1, q.2.2.1, q.2.2.2])
    else (parseHexGroup g).map (fun v => [v / 256, v % 256])
  | g :: rest => do
    let v ← parseHexGroup g
    let b ← groupsToBytes v4ok rest
    pure ([v / 256, v % 256] ++ b)

/-- Parse a colon-grouped IPv6 address into its sixteen bytes. -/
def parseIPv6 (s : GoStr) : Option (List Nat) :=
  match detectParts (splitChar ':' s) with
  | none => none
  | some (lhs, hasEll, rhs) => do
    let lb ← groupsToBytes false lhs
    let rb ← groupsToBytes true rhs
    if hasEll then
      if lb.length + rb.length ≤ 14 then
        pure (lb ++ List.replicate (16 - lb.length - rb.length) 0 ++ rb)
      else none
    else
      let bytes := lb ++ rb
      if bytes.length = 16 then pure bytes else none

/-- Model of `net.ParseIP`: the first `.` or `:` decides the family. -/
def parseIP (s : GoStr) : Option IPAddrM :=
  match s.find? (fun c => c = '.' ∨ c = ':') with
  | some c =>
    if c = '.' then (parseIPv4 s).map (fun q => .v4 q.1 q.2.1 q.2.2.1 q.2.2.2)
    else (parseIPv6 s).map .v6
  | none => none

/-- Model of `IP.To4`: an IPv4 address, or a v4-mapped IPv6 address. -/
def ipTo4 : IPAddrM → Option (Nat × Nat × Nat × Nat)
  | .v4 a b c d => some (a, b, c, d)
  | .v6 bytes =>
    match bytes with
    | [0, 0, 0, 0, 0, 0, 0, 0, 0, 0, 255, 255, a, b, c, d] => some (a, b, c, d)
    | _ => none

/-- `ipv4Prefix` (filters source lines 253-263): the first three dotted-quad
octets of an IPv4 address, or the empty string. -/
def ipv4Pfx (ip : GoStr) : GoStr :=
  match parseIP ip with
  | none => []
  | some p =>
    match ipTo4 p with
    | none => []
    | some q => natChars q.1 ++ '.' :: natChars q.2.1 ++ '.' :: natChars q.2.2.1

/-- `ipv6Prefix` (filters source lines 265-278): the hex encoding of the first
eight bytes of a non-IPv4 address, or the empty string. -/
def ipv6Pfx (ip : GoStr) : GoStr :=
  match parseIP ip with
  | none => []
  | some p =>
    if (ipTo4 p).isSome then []
    else
      match p with
      | .v4 _ _ _ _ => []
      | .v6 bytes => hexEncode (bytes.take 8)

/-- `WildcardProfile` (filters source lines 22-28), with the Go string sets
embedded as duplicate-free lists. -/
structure WildcardProfile where
  active : Bool
  ips : List GoStr
  ipv4Prefixes : List GoStr
  ipv6Prefixes : List GoStr
  cnames : List GoStr
deriving DecidableEq

/-- Set insertion for the accumulated profile sets. -/
def setInsert (l : List GoStr) (x : GoStr) : List GoStr :=
  if x ∈ l then l else l ++ [x]

/-- The four profile sets accumulated by `DetectWildcard`: observed IPs,
IPv4 prefixes, IPv6 prefixes, CNAME targets. -/
abbrev ProfAcc := List GoStr × List GoStr × List GoStr × List GoStr

/-- One iteration of the IP loop of `DetectWildcard` (filters source lines
100-112). -/
def accumIPStep (a : ProfAcc) (ip : GoStr) : ProfAcc :=
  let trimmed := trimSpace ip
  if trimmed = [] then a
  else
    let ips := setInsert a.1 trimmed
    let v4 := if ipv4Pfx trimmed ≠ [] then setInsert a.2.1 (ipv4Pfx trimmed) else a.2.1
    let v6 := if ipv6Pfx trimmed ≠ [] then setInsert a.2.2.1 (ipv6Pfx trimmed) else a.2.2.1
    (ips, v4, v6, a.2.2.2)

/-- One iteration of the CNAME loop of `DetectWildcard` (filters source lines
113-121). -/
def accumCNStep (cs : List GoStr) (value : GoStr) : List GoStr :=
  let cleaned := toLowerStr (trimSpace value)
  if cleaned = [] then cs else setInsert cs cleaned

/-- The per-result accumulation of `DetectWildcard` (filters source lines
98-122): record every trimmed IP, its IPv4 `/24` and IPv6 64-bit prefixes, and
every lower-cased CNAME target. -/
def accumProfile (acc : ProfAcc) (res : Resolver.Result) : ProfAcc :=
  let step := res.ipAddresses.foldl accumIPStep acc
  let cnames := (Resolver.findRecords res.dnsRecords (gs "CNAME")).foldl accumCNStep step.2.2.2
  (step.1, step.2.1, step.2.2.1, cnames)

/-- The profile built by `DetectWildcard` (filters source lines 56-136) from
the resolution results of the random-label probes: probes that produced no IP
and no record are dropped (line 69), and the profile is active iff at least
one probe succeeded. -/
def buildWildcardProfile (results : List Resolver.Result) : WildcardProfile :=
  let succ := results.filter (fun r => ¬ (r.ipAddresses = [] ∧ r.dnsRecords = []))
  if succ = [] then { active := false, ips := [], ipv4Prefixes := [], ipv6Prefixes := [], cnames := [] }
  else
    let acc := succ.foldl accumProfile ([], [], [], [])
    { active := true, ips := acc.1, ipv4Prefixes := acc.2.1, ipv6Prefixes := acc.2.2.1,
      cnames := acc.2.2.2 }

/-- `WildcardProfile.Matches` (filters source lines 149-191). -/
def Matches (p : WildcardProfile) (res : Resolver.Result) : Bool :=
  if ¬ p.active then false
  else if p.ips = [] ∧ p.cnames = [] ∧ p.ipv4Prefixes = [] ∧ p.ipv6Prefixes = [] then false
  else
    let ipHit :=
      if p.ips ≠ [] ∨ p.ipv4Prefixes ≠ [] ∨ p.ipv6Prefixes ≠ [] then
        res.ipAddresses.any (fun ip =>
          let trimmed := trimSpace ip
          if trimmed = [] then false
          else if trimmed ∈ p.ips then true
          else if ipv4Pfx trimmed ≠ [] ∧ ipv4Pfx trimmed ∈ p.ipv4Prefixes then true
          else if ipv6Pfx trimmed ≠ [] ∧ ipv6Pfx trimmed ∈ p.ipv6Prefixes then true
          else false)
      else false
    if ipHit then true
    else if p.cnames ≠ [] then
      (Resolver.findRecords res.dnsRecords (gs "CNAME")).any (fun cname =>
        toLowerStr (trimSpace cname) ∈ p.cnames)
    else false

end Filters

namespace Ratelimit

/-!
Shallow embedding of `ratelimit/ratelimit.go`. The `float64` token count and
`time.Time`/`time.Duration` values are embedded as exact rationals (time in
seconds); `now.Before(t)` is `now < t` and `elapsed.Seconds() * rate` is
exact multiplication. A nil limiter (rate ≤ 0) always admits and is handled
at construction.
-/

/-- `Limiter` (ratelimit.go lines 10-16). -/
structure Limiter where
  rate : ℚ
  capacity : ℚ
  tokens : ℚ
  lastFill : ℚ
deriving DecidableEq

/-- `New` (ratelimit.go lines 18-29): `none` models the nil limiter returned
for a non-positive rate. -/
def newLimiter (rate : ℚ) (now : ℚ) : Option Limiter :=
  if rate ≤ 0 then none
  else some { rate := rate, capacity := max rate 1, tokens := max rate 1, lastFill := now }

/-- `refillLocked` (ratelimit.go lines 86-103): a clock observation before the
last refill only rewinds `lastFill`; otherwise tokens grow at `rate` per
second, capped at `capacity`. -/
def refillLocked (l : Limiter) (now : ℚ) : Limiter :=
  if now < l.lastFill then { l with lastFill := now }
  else
    let elapsed := now - l.lastFill
    if elapsed ≤ 0 then l
    else
      let tokens := l.tokens + elapsed * l.rate
      let tokens := if tokens > l.capacity then l.capacity else tokens
      { l with tokens := tokens, lastFill := now }

/-- The token-consumption step shared by `Allow` (ratelimit.go lines 31-43)
and the successful branch of `Acquire` (lines 58-65): refill, then consume
one token iff at least one is available. -/
def allowStep (l : Limiter) (now : ℚ) : Limiter × Bool :=
  let l := refillLocked l now
  if l.tokens < 1 then (l, false)
  else ({ l with tokens := l.tokens - 1 }, true)

/-- The number of successful token consumptions over a sequence of clock
observations (each `Allow` call, and each `Acquire` loop iteration, performs
exactly one `allowStep`; `Acquire` returns ok exactly when its step
succeeds). -/
def allowCount : Limiter → List ℚ → Nat
  | _, [] => 0
  | l, t :: ts =>
    match allowStep l t with
    | (l', ok) => (if ok then 1 else 0) + allowCount l' ts

/-- The limiter state after a sequence of clock observations. -/
def runSteps : Limiter → List ℚ → Limiter
  | l, [] => l
  | l, t :: ts => runSteps (allowStep l t).1 ts

end Ratelimit

namespace Oxg3n

/-!
Shallow embedding of the 0xg3n exporter source (`Exporter`, `AddRecord`,
`Flush`, `sendCurrentBatch`, `postPayload`). The HTTP server is embedded as
an oracle `server : Payload → Nat → Bool` giving the success of each retry
attempt (attempts are numbered from 1); each attempt is one observed POST.
`sent_at` timestamps and logging are dropped from the model, JSON marshalling
cannot fail on these value types.
-/

/-- `output.HTTPService` (output/output.go lines 288-296). -/
structure HTTPService where
  url : GoStr
  statusCode : Int
  error : GoStr
  banner : GoStr
  title : GoStr
  screenshotPath : GoStr
  snippet : GoStr
deriving DecidableEq

/-- The exporter-side record (exporter source lines 61-68). -/
structure Rec where
  subdomain : GoStr
  source : GoStr
  timestamp : GoStr
  ipAddresses : List GoStr
  dnsRecords : List (GoStr × List GoStr)
  httpServices : List HTTPService
deriving DecidableEq

/-- `summary` (exporter source lines 53-59). -/
structure Summary where
  totalRecords : Nat
  resolvedRecords : Nat
  uniqueSubdomains : Nat
  uniqueIPs : Nat
  batchesSent : Nat
deriving DecidableEq

/-- `payload` (exporter source lines 44-51, minus `sent_at`). -/
structure Payload where
  domain : GoStr
  batchID : Nat
  records : List Rec
  summary : Summary
  final : Bool
deriving DecidableEq

/-- The exporter state (exporter source lines 27-42). The Go sets
`uniqueSubdomains`/`uniqueIPs` are embedded as duplicate-free lists. -/
structure Exporter where
  domain : GoStr
  batch : List Rec
  batchSize : Nat
  totalRecords : Nat
  resolvedRecords : Nat
  uniqueSubdomains : List GoStr
  uniqueIPs : List GoStr
  batchesSent : Nat
  finalSent : Bool
deriving DecidableEq

/-- Membership-preserving set insertion for the summary sets. -/
def setAdd (l : List GoStr) (x : GoStr) : List GoStr :=
  if x ∈ l then l else l ++ [x]

/-- `buildSummary` (exporter source lines 246-254). -/
def buildSummary (e : Exporter) : Summary :=
  { totalRecords := e.totalRecords, resolvedRecords := e.resolvedRecords,
    uniqueSubdomains := e.uniqueSubdomains.length, uniqueIPs := e.uniqueIPs.length,
    batchesSent := e.batchesSent }

/-- A fresh exporter as built by `NewExporter` (exporter source lines 71-101)
for a non-empty endpoint. -/
def newExporter (domain : GoStr) (batchSize : Int) : Exporter :=
  { domain := domain, batch := [], batchSize := if batchSize ≤ 0 then 100 else batchSize.toNat,
    totalRecords := 0, resolvedRecords := 0, uniqueSubdomains := [], uniqueIPs := [],
    batchesSent := 0, finalSent := false }

/-- `postPayload` (exporter source lines 198-244): up to three attempts, each
an observed POST, stopping at the first success. Returns the POSTs issued and
whether the send succeeded. -/
def postPayload (server : Payload → Nat → Bool) (p : Payload) : List Payload × Bool :=
  if server p 1 then ([p], true)
  else if server p 2 then ([p, p], true)
  else ([p, p, p], server p 3)

/-- The payload that `sendCurrentBatch` (exporter source lines 174-196) builds
after incrementing the batch counter. -/
def pendingPayload (e : Exporter) (final : Bool) : Payload :=
  let e1 := { e with batchesSent := e.batchesSent + 1 }
  { domain := e.domain, batchID := e1.batchesSent, records := e.batch,
    summary := buildSummary e1, final := final }

/-- `sendCurrentBatch` (exporter source lines 174-196): increment the batch
counter, POST the pending batch, and on failure roll the counter back and keep
the batch. Returns the new state, the observed POSTs, and success. -/
def sendCurrentBatch (server : Payload → Nat → Bool) (e : Exporter) (final : Bool) :
    Exporter × List Payload × Bool :=
  if e.batch = [] then (e, [], true)
  else
    let e1 := { e with batchesSent := e.batchesSent + 1 }
    let p := pendingPayload e final
    let r := postPayload server p
    if r.2 then
      ({ e1 with batch := [], finalSent := final || e1.finalSent }, r.1, true)
    else
      ({ e1 with batchesSent := e1.batchesSent - 1 }, r.1, false)

/-- `AddRecord` (exporter source lines 104-146): convert and append the
record, update the summary counters, and send the batch once it reaches the
configured size. `now` is the RFC3339 rendering of `time.Now()` used when the
record carries no timestamp. -/
def addRecord (server : Payload → Nat → Bool) (e : Exporter) (rec : Rec) (now : GoStr) :
    Exporter × List Payload × Bool :=
  let converted := { rec with timestamp := if rec.timestamp = [] then now else rec.timestamp }
  let e := { e with
    batch := e.batch ++ [converted],
    totalRecords := e.totalRecords + 1,
    uniqueSubdomains := setAdd e.uniqueSubdomains (toLowerStr rec.subdomain),
    resolvedRecords := if rec.ipAddresses ≠ [] ∨ rec.dnsRecords ≠ [] then
      e.resolvedRecords + 1 else e.resolvedRecords,
    uniqueIPs := rec.ipAddresses.foldl (fun acc ip =>
      let ip := trimSpace ip
      if ip ≠ [] then setAdd acc ip else acc) e.uniqueIPs }
  if e.batch.length ≥ e.batchSize then sendCurrentBatch server e false
  else (e, [], true)

/-- `Flush` (exporter source lines 149-172): send any remaining records as a
final batch, or an empty final payload if none was ever marked final; `none`
models the error return. -/
def flush (server : Payload → Nat → Bool) (e : Exporter) :
    Exporter × List Payload × Option Summary :=
  if e.batch ≠ [] then
    let r := sendCurrentBatch server e true
    if r.2.2 then (r.1, r.2.1, some (buildSummary r.1))
    else (r.1, r.2.1, none)
  else if ¬ e.finalSent then
    let p : Payload :=
      { domain := e.domain
        batchID := e.batchesSent
        records := []
        summary := buildSummary e
        final := true }
    let r := postPayload server p
    if r.2 then ({ e with finalSent := true }, r.1, some (buildSummary e))
    else (e, r.1, none)
  else (e, [], some (buildSummary e))

/-- The full "batch size 1, two records, flush" run of spec scenario 6: the
observed POSTs and the returned summary. -/
def twoRecordRun (server : Payload → Nat → Bool) (r1 r2 : Rec) (now : GoStr) :
    List Payload × Option Summary :=
  let e0 := newExporter (gs "example.com") 1
  let s1 := addRecord server e0 r1 now
  let s2 := addRecord server s1.1 r2 now
  let s3 := flush server s2.1
  (s1.2.1 ++ s2.2.1 ++ s3.2.1, s3.2.2)

end Oxg3n

namespace Bruteforce

/-!
Shallow embedding of the aggregation stage of the bruteforce engine's `Run`
(bruteforce source lines 160-189) and of the worker-pool sizing logic (lines
42-46 and 112-119). The results channel contents are embedded as the list of
`Result` values the workers emitted, in arrival order; `intern.Intern`
returns a string equal to its argument and is the identity under value
semantics.
-/

/-- `Result` (bruteforce source lines 36-40). -/
structure Result where
  subdomain : GoStr
  rcode : Int
  answers : List GoStr
deriving DecidableEq

/-- `minAutoTuneWorkers` (bruteforce source line 44). -/
def minAutoTuneWorkers : Int := 50

/-- `maxAutoTuneWorkers` (bruteforce source line 45). -/
def maxAutoTuneWorkers : Int := 500

/-- The initial worker-pool size chosen by `Run` (bruteforce source lines
112-119): `minAutoTuneWorkers` when autotune is on, otherwise the configured
worker count, with 10 as the non-positive fallback. -/
def initialWorkers (workers : Int) (autoTune : Bool) : Int :=
  let i := if autoTune then minAutoTuneWorkers else workers
  if i ≤ 0 then 10 else i

/-- The deduplication loop of `Run` (bruteforce source lines 164-182): key
each result by its lower-cased trimmed hostname, drop empties and repeats,
and keep first arrivals in order. -/
def collectResults (seen : List GoStr) (found : List Result) :
    List Result → List Result
  | [] => found
  | res :: rest =>
    let subdomain := toLowerStr (trimSpace res.subdomain)
    if subdomain = [] then collectResults seen found rest
    else if subdomain ∈ seen then collectResults seen found rest
    else collectResults (subdomain :: seen)
      (found ++ [{ res with subdomain := subdomain }]) rest

/-- The order used by the final `sort.Slice` of `Run` (bruteforce source lines
184-186): ascending by subdomain. -/
def bfLe (a b : Result) : Prop := strLtb b.subdomain a.subdomain = false

instance : DecidableRel bfLe :=
  fun a b => (inferInstance : Decidable (strLtb b.subdomain a.subdomain = false))

/-- The aggregation stage of `Run` (bruteforce source lines 160-189): dedup by
lower-cased trimmed hostname, then sort ascending by subdomain. -/
def aggregateResults (results : List Result) : List Result :=
  List.insertionSort bfLe (collectResults [] [] results)

end Bruteforce

namespace MainCmd

/-!
Shallow embedding of the diff-normalization helpers of `cmd/nitro/main.go`:
`dedupeSortedStrings` (lines 1012-1034, defined at top level above),
`normalizeDiffRecord` (lines 1141-1178), `normalizeSources` (lines
1180-1187), `diffRecordsEqual` (lines 1189-1220), `httpServicesEqual` (lines
1222-1229) and `equalStringSlices` (lines 1231-1241). `output.Record` is the
full record type of `output/output.go` lines 277-296, with the `DNSRecords`
Go map embedded as an association list (normalization rebuilds it with
insert-or-replace, mirroring Go map assignment).
-/

/-- `output.Record` (output/output.go lines 277-285). -/
structure Record where
  subdomain : GoStr
  ipAddresses : List GoStr
  source : GoStr
  timestamp : GoStr
  dnsRecords : List (GoStr × List GoStr)
  httpServices : List Oxg3n.HTTPService
  change : GoStr
deriving DecidableEq

/-- `normalizeSources` (main.go lines 1180-1187): split on commas, dedup and
sort the parts, and re-join. -/
def normalizeSources (source : GoStr) : GoStr :=
  if trimSpace source = [] then []
  else joinSep [','] (dedupeSortedStrings (splitChar ',' source))

/-- The per-service normalization of `normalizeDiffRecord` (main.go lines
1157-1167): lower-case the URL and trim the text fields; the screenshot path
is not copied. -/
def normSvc (svc : Oxg3n.HTTPService) : Oxg3n.HTTPService :=
  { url := toLowerStr (trimSpace svc.url)
    statusCode := svc.statusCode
    error := trimSpace svc.error
    banner := trimSpace svc.banner
    title := trimSpace svc.title
    screenshotPath := []
    snippet := trimSpace svc.snippet }

/-- The strict order of the `sort.Slice` in `normalizeDiffRecord` (main.go
lines 1168-1173): by URL, then by status code. -/
def svcLtb (a b : Oxg3n.HTTPService) : Bool :=
  if a.url = b.url then a.statusCode < b.statusCode else strLtb a.url b.url

/-- The non-strict order induced by `svcLtb`, used to model the sort. -/
def svcLe (a b : Oxg3n.HTTPService) : Prop := svcLtb b a = false

instance : DecidableRel svcLe :=
  fun a b => (inferInstance : Decidable (svcLtb b a = false))

/-- `normalizeDiffRecord` (main.go lines 1141-1178). -/
def normalizeDiffRecord (rec : Record) : Record :=
  let dnsRecords :=
    if rec.dnsRecords ≠ [] then
      rec.dnsRecords.foldl (fun m kv =>
        Dnsclient.assocInsert m (toUpperStr (trimSpace kv.1)) (dedupeSortedStrings kv.2)) []
    else []
  let httpServices :=
    if rec.httpServices ≠ [] then
      List.insertionSort svcLe (rec.httpServices.map normSvc)
    else []
  { subdomain := toLowerStr (trimSpace rec.subdomain)
    ipAddresses := dedupeSortedStrings rec.ipAddresses
    source := normalizeSources rec.source
    timestamp := []
    dnsRecords := dnsRecords
    httpServices := httpServices
    change := [] }

/-- `equalStringSlices` (main.go lines 1231-1241). -/
def equalStringSlices (a b : List GoStr) : Bool :=
  a.length = b.length ∧ (a.zip b).all (fun p => p.1 = p.2)

/-- `httpServicesEqual` (main.go lines 1222-1229): compare every field except
the screenshot path. -/
def httpServicesEqual (a b : Oxg3n.HTTPService) : Bool :=
  a.url = b.url ∧ a.statusCode = b.statusCode ∧ a.error = b.error ∧
  a.banner = b.banner ∧ a.title = b.title ∧ a.snippet = b.snippet

/-- `diffRecordsEqual` (main.go lines 1189-1220): normalize both records and
compare field by field (timestamps and change markers are not compared). -/
def diffRecordsEqual (a b : Record) : Bool :=
  let na := normalizeDiffRecord a
  let nb := normalizeDiffRecord b
  na.subdomain = nb.subdomain ∧
  na.source = nb.source ∧
  equalStringSlices na.ipAddresses nb.ipAddresses ∧
  na.dnsRecords.length = nb.dnsRecords.length ∧
  na.dnsRecords.all (fun kv =>
    match nb.dnsRecords.find? (fun kv2 => kv2.1 = kv.1) with
    | none => false
    | some kv2 => equalStringSlices kv.2 kv2.2) ∧
  na.httpServices.length = nb.httpServices.length ∧
  (na.httpServices.zip nb.httpServices).all (fun p => httpServicesEqual p.1 p.2)

end MainCmd

/-! ### Foundation lemmas: characters -/

theorem charToNat_inj {c d : Char} (h : c.toNat = d.toNat) : c = d :=
  Char.ext (UInt32.ext h)

theorem charToNat_ofNat {n : Nat} (h : n < 55296) : (Char.ofNat n).toNat = n := by
  have hv : n.isValidChar := Or.inl h
  unfold Char.ofNat
  rw [dif_pos hv]
  simp [Char.ofNatAux, Char.toNat, UInt32.toNat, BitVec.toNat_ofNatLt]

theorem charLower_toNat (c : Char) :
    (Char.toLower c).toNat = if c.toNat ≥ 65 ∧ c.toNat ≤ 90 then c.toNat + 32 else c.toNat := by
  unfold Char.toLower
  by_cases h : c.toNat ≥ 65 ∧ c.toNat ≤ 90
  · rw [if_pos h, if_pos h]
    exact charToNat_ofNat (by omega)
  · rw [if_neg h, if_neg h]

theorem charUpper_toNat (c : Char) :
    (Char.toUpper c).toNat = if c.toNat ≥ 97 ∧ c.toNat ≤ 122 then c.toNat - 32 else c.toNat := by
  unfold Char.toUpper
  by_cases h : c.toNat ≥ 97 ∧ c.toNat ≤ 122
  · rw [if_pos h, if_pos h]
    exact charToNat_ofNat (by omega)
  · rw [if_neg h, if_neg h]

theorem charLower_idem (c : Char) : Char.toLower (Char.toLower c) = Char.toLower c := by
  apply charToNat_inj
  rw [charLower_toNat, charLower_toNat c]
  by_cases h : c.toNat ≥ 65 ∧ c.toNat ≤ 90
  · rw [if_pos h, if_neg (by omega)]
  · rw [if_neg h, if_neg h]

theorem charUpper_idem (c : Char) : Char.toUpper (Char.toUpper c) = Char.toUpper c := by
  apply charToNat_inj
  rw [charUpper_toNat, charUpper_toNat c]
  by_cases h : c.toNat ≥ 97 ∧ c.toNat ≤ 122
  · rw [if_pos h, if_neg (by omega)]
  · rw [if_neg h, if_neg h]

theorem goSpace_iff (c : Char) :
    goSpace c = true ↔ c.toNat = 32 ∨ c.toNat = 9 ∨ c.toNat = 13 ∨ c.toNat = 10 := by
  unfold goSpace Char.isWhitespace
  simp only [Bool.or_eq_true, decide_eq_true_eq]
  constructor
  · rintro (((h | h) | h) | h) <;> subst h <;> decide
  · rintro (h | h | h | h)
    · refine Or.inl (Or.inl (Or.inl (charToNat_inj ?_)))
      rw [h]; decide
    · refine Or.inl (Or.inl (Or.inr (charToNat_inj ?_)))
      rw [h]; decide
    · refine Or.inl (Or.inr (charToNat_inj ?_))
      rw [h]; decide
    · refine Or.inr (charToNat_inj ?_)
      rw [h]; decide

theorem goSpace_toLower (c : Char) : goSpace (Char.toLower c) = goSpace c := by
  have h := charLower_toNat c
  by_cases hr : c.toNat ≥ 65 ∧ c.toNat ≤ 90
  · rw [if_pos hr] at h
    have h1 : goSpace (Char.toLower c) = false := by
      rw [Bool.eq_false_iff]
      intro hc
      have := (goSpace_iff _).mp hc
      omega
    have h2 : goSpace c = false := by
      rw [Bool.eq_false_iff]
      intro hc
      have := (goSpace_iff _).mp hc
      omega
    rw [h1, h2]
  · rw [if_neg hr] at h
    rw [charToNat_inj h]

theorem goSpace_toUpper (c : Char) : goSpace (Char.toUpper c) = goSpace c := by
  have h := charUpper_toNat c
  by_cases hr : c.toNat ≥ 97 ∧ c.toNat ≤ 122
  · rw [if_pos hr] at h
    have h1 : goSpace (Char.toUpper c) = false := by
      rw [Bool.eq_false_iff]
      intro hc
      have := (goSpace_iff _).mp hc
      omega
    have h2 : goSpace c = false := by
      rw [Bool.eq_false_iff]
      intro hc
      have := (goSpace_iff _).mp hc
      omega
    rw [h1, h2]
  · rw [if_neg hr] at h
    rw [charToNat_inj h]

/-! ### Foundation lemmas: trimming -/

theorem head?_dropWhile_false {p : Char → Bool} {l : GoStr} {c : Char}
    (h : (l.dropWhile p).head? = some c) : p c = false := by
  have := List.head?_dropWhile_not p l
  rw [h] at this
  exact this

theorem dropWhile_eq_self_of_head {p : Char → Bool} {l : GoStr}
    (h : ∀ c, l.head? = some c → p c = false) : l.dropWhile p = l := by
  cases l with
  | nil => rfl
  | cons c rest =>
    have := h c rfl
    simp [List.dropWhile, this]

theorem trimRight_append {l : GoStr} :
    ∃ t, l = (l.reverse.dropWhile goSpace).reverse ++ t := by
  obtain ⟨t, ht⟩ := (List.dropWhile_suffix goSpace : l.reverse.dropWhile goSpace <:+ l.reverse)
  refine ⟨t.reverse, ?_⟩
  have : l.reverse.reverse = (t ++ l.reverse.dropWhile goSpace).reverse := by rw [ht]
  simpa [List.reverse_append] using this

theorem trimRight_getLast? {l : GoStr} {c : Char}
    (h : ((l.reverse.dropWhile goSpace).reverse).getLast? = some c) : goSpace c = false := by
  rw [List.getLast?_reverse] at h
  exact head?_dropWhile_false h

theorem trimRight_head? {l : GoStr} {c : Char}
    (hne : (l.reverse.dropWhile goSpace).reverse ≠ [])
    (h : ((l.reverse.dropWhile goSpace).reverse).head? = some c) : l.head? = some c := by
  obtain ⟨t, ht⟩ := @trimRight_append l
  rw [ht]
  cases hh : (l.reverse.dropWhile goSpace).reverse with
  | nil => exact absurd hh hne
  | cons x xs =>
    rw [hh] at h
    simp at h
    simp [hh, h]

theorem trimSpace_head? {s : GoStr} {c : Char}
    (h : (trimSpace s).head? = some c) : goSpace c = false := by
  unfold trimSpace at h
  by_cases hne : ((s.dropWhile goSpace).reverse.dropWhile goSpace).reverse = []
  · rw [hne] at h
    simp at h
  · have h2 := trimRight_head? hne h
    exact head?_dropWhile_false h2

theorem trimSpace_getLast? {s : GoStr} {c : Char}
    (h : (trimSpace s).getLast? = some c) : goSpace c = false := by
  unfold trimSpace at h
  exact trimRight_getLast? h

theorem trimSpace_eq_self {s : GoStr}
    (hh : ∀ c, s.head? = some c → goSpace c = false)
    (hl : ∀ c, s.getLast? = some c → goSpace c = false) : trimSpace s = s := by
  unfold trimSpace
  rw [dropWhile_eq_self_of_head hh]
  rw [dropWhile_eq_self_of_head (by
    intro c hc
    rw [List.head?_reverse] at hc
    exact hl c hc)]
  exact List.reverse_reverse s

theorem trimSpace_idem (s : GoStr) : trimSpace (trimSpace s) = trimSpace s :=
  trimSpace_eq_self (fun _ h => trimSpace_head? h) (fun _ h => trimSpace_getLast? h)

theorem trimSpace_nil : trimSpace [] = [] := rfl

theorem trimSpace_subset {s : GoStr} : trimSpace s ⊆ s := by
  unfold trimSpace
  intro c hc
  rw [List.mem_reverse] at hc
  have h1 := (List.dropWhile_suffix goSpace :
      (s.dropWhile goSpace).reverse.dropWhile goSpace <:+ (s.dropWhile goSpace).reverse).subset hc
  rw [List.mem_reverse] at h1
  exact (List.dropWhile_suffix goSpace).subset h1

theorem trimSpace_eq_nil_iff {s : GoStr} : trimSpace s = [] ↔ ∀ c ∈ s, goSpace c = true := by
  constructor
  · intro h c hc
    by_contra hns
    have hd : s.dropWhile goSpace ≠ [] := by
      rw [Ne, List.dropWhile_eq_nil_iff]
      push_neg
      exact ⟨c, hc, hns⟩
    unfold trimSpace at h
    rw [List.reverse_eq_nil_iff, List.dropWhile_eq_nil_iff] at h
    obtain ⟨d, hd'⟩ := List.exists_mem_of_ne_nil _ hd
    have hdh : ∀ e, (s.dropWhile goSpace).head? = some e → goSpace e = false := by
      intro e he
      exact head?_dropWhile_false he
    cases hdd : s.dropWhile goSpace with
    | nil => exact hd hdd
    | cons x xs =>
      have hx := hdh x (by rw [hdd]; rfl)
      have : x ∈ (s.dropWhile goSpace).reverse := by
        rw [List.mem_reverse, hdd]
        exact List.mem_cons_self x xs
      rw [h x this] at hx
      exact Bool.noConfusion hx
  · intro h
    unfold trimSpace
    rw [List.reverse_eq_nil_iff, List.dropWhile_eq_nil_iff]
    intro x hx
    rw [List.mem_reverse] at hx
    exact h x ((List.dropWhile_suffix goSpace).subset hx)

/-! ### Foundation lemmas: the byte-wise string order -/

theorem strLtb_nil_right (a : GoStr) : strLtb a [] = false := by
  cases a <;> rfl

theorem strLtb_cons {c d : Char} {cs ds : GoStr} :
    strLtb (c :: cs) (d :: ds) =
      if c < d then true else if d < c then false else strLtb cs ds := rfl

theorem strLtb_irrefl (a : GoStr) : strLtb a a = false := by
  induction a with
  | nil => rfl
  | cons c cs ih => rw [strLtb_cons, if_neg (lt_irrefl c), if_neg (lt_irrefl c), ih]

theorem strLtb_asymm {a b : GoStr} (h : strLtb a b = true) : strLtb b a = false := by
  induction a generalizing b with
  | nil =>
    cases b with
    | nil => exact absurd h (by decide)
    | cons d ds => exact strLtb_nil_right _
  | cons c cs ih =>
    cases b with
    | nil => rw [strLtb_nil_right] at h; exact Bool.noConfusion h
    | cons d ds =>
      rw [strLtb_cons] at h ⊢
      by_cases h1 : c < d
      · rw [if_neg (lt_asymm h1), if_pos h1]
      · rw [if_neg h1] at h
        by_cases h2 : d < c
        · rw [if_pos h2] at h; exact Bool.noConfusion h
        · rw [if_neg h2] at h
          rw [if_neg h2, if_neg h1]
          exact ih h

theorem strLtb_eq_of_both_false {a b : GoStr}
    (h1 : strLtb a b = false) (h2 : strLtb b a = false) : a = b := by
  induction a generalizing b with
  | nil =>
    cases b with
    | nil => rfl
    | cons d ds => exact absurd h1 (by simp [strLtb])
  | cons c cs ih =>
    cases b with
    | nil => exact absurd h2 (by simp [strLtb])
    | cons d ds =>
      rw [strLtb_cons] at h1 h2
      by_cases hcd : c < d
      · rw [if_pos hcd] at h1; exact Bool.noConfusion h1
      · rw [if_neg hcd] at h1
        by_cases hdc : d < c
        · rw [if_pos hdc] at h2; exact Bool.noConfusion h2
        · rw [if_neg hdc, if_neg hcd] at h2
          rw [if_neg hdc] at h1
          have he : c = d := le_antisymm (not_lt.mp hdc) (not_lt.mp hcd)
          rw [he, ih h1 h2]

theorem strLe_trans {a b c : GoStr}
    (h1 : strLtb b a = false) (h2 : strLtb c b = false) : strLtb c a = false := by
  induction a generalizing b c with
  | nil => exact strLtb_nil_right c
  | cons x xs ih =>
    cases b with
    | nil => exact absurd h1 (by simp [strLtb])
    | cons y ys =>
      cases c with
      | nil => exact absurd h2 (by simp [strLtb])
      | cons z zs =>
        rw [strLtb_cons] at h1 h2 ⊢
        by_cases hyx : y < x
        · rw [if_pos hyx] at h1; exact Bool.noConfusion h1
        by_cases hzy : z < y
        · rw [if_pos hzy] at h2; exact Bool.noConfusion h2
        rw [if_neg hyx] at h1
        rw [if_neg hzy] at h2
        have hxy : x ≤ y := not_lt.mp hyx
        have hyz : y ≤ z := not_lt.mp hzy
        have hzx : ¬ z < x := not_lt.mpr (le_trans hxy hyz)
        rw [if_neg hzx]
        by_cases hxz : x < z
        · rw [if_pos hxz]
        rw [if_neg hxz]
        have hxez : x = z := le_antisymm (le_trans hxy hyz) (not_lt.mp hxz)
        have hxey : x = y := le_antisymm hxy (hxez ▸ hyz)
        rw [if_neg (by rw [← hxey]; exact lt_irrefl x)] at h1
        rw [if_neg (by rw [← hxey, ← hxez]; exact lt_irrefl x)] at h2
        exact ih h1 h2

theorem strLe_total (a b : GoStr) : strLeProp a b ∨ strLeProp b a := by
  unfold strLeProp
  by_cases h : strLtb b a = false
  · exact Or.inl h
  · right
    exact strLtb_asymm (Bool.not_eq_false _ |>.mp h)

theorem strLeProp_trans {a b c : GoStr} (h1 : strLeProp a b) (h2 : strLeProp b c) :
    strLeProp a c :=
  strLe_trans h1 h2

theorem pairwise_lt_of_le_nodup {l : List GoStr}
    (hs : List.Pairwise strLeProp l) (hn : l.Nodup) : List.Pairwise strLtProp l := by
  refine (hs.and hn).imp ?_
  rintro a b ⟨hle, hne⟩
  unfold strLeProp at hle
  unfold strLtProp
  by_contra hlt
  exact hne (strLtb_eq_of_both_false (Bool.not_eq_true _ |>.mp hlt) hle)

/-! ### Foundation lemmas: dedup and sort -/

theorem dedupTrimAux_notMem_seen {seen l : List GoStr} {x : GoStr}
    (h : x ∈ dedupTrimAux seen l) : x ∉ seen := by
  induction l generalizing seen with
  | nil => simp [dedupTrimAux] at h
  | cons v vs ih =>
    rw [dedupTrimAux] at h
    by_cases h1 : trimSpace v = []
    · rw [if_pos h1] at h
      exact ih h
    · rw [if_neg h1] at h
      by_cases h2 : trimSpace v ∈ seen
      · rw [if_pos h2] at h
        exact ih h
      · rw [if_neg h2] at h
        rcases List.mem_cons.mp h with h3 | h3
        · rw [h3]; exact h2
        · intro hx
          exact ih h3 (List.mem_cons_of_mem _ hx)

theorem dedupTrimAux_mem {seen l : List GoStr} {x : GoStr}
    (h : x ∈ dedupTrimAux seen l) : trimSpace x = x ∧ x ≠ [] := by
  induction l generalizing seen with
  | nil => simp [dedupTrimAux] at h
  | cons v vs ih =>
    rw [dedupTrimAux] at h
    by_cases h1 : trimSpace v = []
    · rw [if_pos h1] at h
      exact ih h
    · rw [if_neg h1] at h
      by_cases h2 : trimSpace v ∈ seen
      · rw [if_pos h2] at h
        exact ih h
      · rw [if_neg h2] at h
        rcases List.mem_cons.mp h with h3 | h3
        · rw [h3]
          exact ⟨trimSpace_idem v, h1⟩
        · exact ih h3

theorem dedupTrimAux_nodup (seen l : List GoStr) : (dedupTrimAux seen l).Nodup := by
  induction l generalizing seen with
  | nil => exact List.nodup_nil
  | cons v vs ih =>
    rw [dedupTrimAux]
    by_cases h1 : trimSpace v = []
    · rw [if_pos h1]; exact ih seen
    · rw [if_neg h1]
      by_cases h2 : trimSpace v ∈ seen
      · rw [if_pos h2]; exact ih seen
      · rw [if_neg h2]
        refine List.nodup_cons.mpr ⟨?_, ih _⟩
        intro hmem
        exact dedupTrimAux_notMem_seen hmem (List.mem_cons_self _ _)

theorem dedupTrimAux_eq_self {seen l : List GoStr}
    (hall : ∀ x ∈ l, trimSpace x = x ∧ x ≠ []) (hnd : l.Nodup)
    (hseen : ∀ x ∈ l, x ∉ seen) : dedupTrimAux seen l = l := by
  induction l generalizing seen with
  | nil => rfl
  | cons v vs ih =>
    rw [dedupTrimAux]
    have hv := hall v (List.mem_cons_self _ _)
    rw [hv.1, if_neg hv.2, if_neg (hseen v (List.mem_cons_self _ _))]
    congr 1
    refine ih (fun x hx => hall x (List.mem_cons_of_mem _ hx))
      (List.nodup_cons.mp hnd).2 ?_
    intro x hx
    rw [List.mem_cons]
    push_neg
    exact ⟨fun he => (List.nodup_cons.mp hnd).1 (he ▸ hx),
      hseen x (List.mem_cons_of_mem _ hx)⟩

theorem uniqueSorted_sorted (l : List GoStr) : List.Pairwise strLeProp (uniqueSorted l) := by
  unfold uniqueSorted
  by_cases h : l = []
  · rw [if_pos h, h]; exact List.Pairwise.nil
  · rw [if_neg h]
    exact @List.sorted_insertionSort GoStr strLeProp _ ⟨strLe_total⟩
      ⟨fun _ _ _ => strLeProp_trans⟩ _

theorem uniqueSorted_perm (l : List GoStr) :
    (uniqueSorted l).Perm (dedupTrimAux [] l) := by
  unfold uniqueSorted
  by_cases h : l = []
  · rw [if_pos h, h]; rfl
  · rw [if_neg h]
    exact List.perm_insertionSort _ _

theorem uniqueSorted_nodup (l : List GoStr) : (uniqueSorted l).Nodup :=
  (uniqueSorted_perm l).symm.nodup (dedupTrimAux_nodup [] l)

theorem uniqueSorted_mem {l : List GoStr} {x : GoStr}
    (h : x ∈ uniqueSorted l) : trimSpace x = x ∧ x ≠ [] :=
  dedupTrimAux_mem ((uniqueSorted_perm l).subset h)

theorem uniqueSorted_pairwise_lt (l : List GoStr) :
    List.Pairwise strLtProp (uniqueSorted l) :=
  pairwise_lt_of_le_nodup (uniqueSorted_sorted l) (uniqueSorted_nodup l)

theorem nil_notMem_uniqueSorted (l : List GoStr) : [] ∉ uniqueSorted l := by
  intro h
  exact (uniqueSorted_mem h).2 rfl

theorem uniqueSorted_of_normalized {l : List GoStr}
    (hall : ∀ x ∈ l, trimSpace x = x ∧ x ≠ []) (hnd : l.Nodup)
    (hs : List.Pairwise strLeProp l) : uniqueSorted l = l := by
  unfold uniqueSorted
  by_cases h : l = []
  · rw [if_pos h]
  · rw [if_neg h, dedupTrimAux_eq_self hall hnd (fun x _ => List.not_mem_nil x)]
    exact List.Sorted.insertionSort_eq hs

theorem uniqueSorted_idem (l : List GoStr) : uniqueSorted (uniqueSorted l) = uniqueSorted l :=
  uniqueSorted_of_normalized (fun _ h => uniqueSorted_mem h) (uniqueSorted_nodup l)
    (uniqueSorted_sorted l)

theorem dedupeSortedStrings_eq_uniqueSorted (l : List GoStr) :
    dedupeSortedStrings l = uniqueSorted l := by
  unfold dedupeSortedStrings uniqueSorted
  by_cases h : l = []
  · rw [if_pos h, if_pos h, h]
  · rw [if_neg h, if_neg h]
    by_cases h2 : dedupTrimAux [] l = []
    · rw [if_pos h2, h2]
      rfl
    · rw [if_neg h2]

/-! ### Lemmas about the resolver record assembly -/

theorem findRecords_nil (k : GoStr) : Resolver.findRecords [] k = [] := rfl

theorem findRecords_cons_self (k : GoStr) (v : List GoStr) (m : List (GoStr × List GoStr)) :
    Resolver.findRecords ((k, v) :: m) k = v := by
  simp [Resolver.findRecords]

theorem findRecords_cons_ne {k' k : GoStr} (h : k' ≠ k) (v : List GoStr)
    (m : List (GoStr × List GoStr)) :
    Resolver.findRecords ((k', v) :: m) k = Resolver.findRecords m k := by
  simp [Resolver.findRecords, List.find?, h]

theorem findRecords_of_keys_ne {m : List (GoStr × List GoStr)} {k : GoStr}
    (h : ∀ kv ∈ m, kv.1 ≠ k) : Resolver.findRecords m k = [] := by
  induction m with
  | nil => rfl
  | cons kv rest ih =>
    obtain ⟨k', v⟩ := kv
    rw [findRecords_cons_ne (h (k', v) (List.mem_cons_self _ _)) v rest]
    exact ih (fun kv hkv => h kv (List.mem_cons_of_mem _ hkv))

theorem cnameEntry_key {hostname : GoStr} {o : Resolver.LookupOracle}
    {kv : GoStr × List GoStr} (h : kv ∈ Resolver.cnameEntry hostname o) :
    kv.1 = gs "CNAME" := by
  unfold Resolver.cnameEntry at h
  split at h
  next =>
    split at h
    next => simp only [List.mem_singleton] at h; rw [h]
    next => simp at h
  next => simp at h
theorem mxEntry_key {o : Resolver.LookupOracle} {kv : GoStr × List GoStr}
    (h : kv ∈ Resolver.mxEntry o) : kv.1 = gs "MX" := by
  unfold Resolver.mxEntry at h
  split at h
  next =>
    split at h
    next => simp only [List.mem_singleton] at h; rw [h]
    next => simp at h
  next => simp at h
theorem txtEntry_key {o : Resolver.LookupOracle} {kv : GoStr × List GoStr}
    (h : kv ∈ Resolver.txtEntry o) : kv.1 = gs "TXT" := by
  unfold Resolver.txtEntry at h
  split at h
  next =>
    split at h
    next => simp only [List.mem_singleton] at h; rw [h]
    next => simp at h
  next => simp at h
theorem nsEntry_key {o : Resolver.LookupOracle} {kv : GoStr × List GoStr}
    (h : kv ∈ Resolver.nsEntry o) : kv.1 = gs "NS" := by
  unfold Resolver.nsEntry at h
  split at h
  next =>
    split at h
    next => simp only [List.mem_singleton] at h; rw [h]
    next => simp at h
  next => simp at h
theorem tailEntries_key {hostname : GoStr} {o : Resolver.LookupOracle}
    {kv : GoStr × List GoStr}
    (h : kv ∈ Resolver.cnameEntry hostname o ++ Resolver.mxEntry o
      ++ Resolver.txtEntry o ++ Resolver.nsEntry o) :
    kv.1 = gs "CNAME" ∨ kv.1 = gs "MX" ∨ kv.1 = gs "TXT" ∨ kv.1 = gs "NS" := by
  rcases List.mem_append.mp h with h1 | h1
  · rcases List.mem_append.mp h1 with h2 | h2
    · rcases List.mem_append.mp h2 with h3 | h3
      · exact Or.inl (cnameEntry_key h3)
      · exact Or.inr (Or.inl (mxEntry_key h3))
    · exact Or.inr (Or.inr (Or.inl (txtEntry_key h2)))
  · exact Or.inr (Or.inr (Or.inr (nsEntry_key h1)))

theorem aRecordsOf_normalized (o : Resolver.LookupOracle) :
    uniqueSorted (Resolver.aRecordsOf o) = Resolver.aRecordsOf o := by
  unfold Resolver.aRecordsOf Resolver.lookupIPAddresses
  cases o.ipAddrs with
  | error e => rfl
  | ok addrs => exact uniqueSorted_idem _

theorem aaaaRecordsOf_normalized (o : Resolver.LookupOracle) :
    uniqueSorted (Resolver.aaaaRecordsOf o) = Resolver.aaaaRecordsOf o := by
  unfold Resolver.aaaaRecordsOf Resolver.lookupIPAddresses
  cases o.ipAddrs with
  | error e => rfl
  | ok addrs => exact uniqueSorted_idem _

theorem mem_ite_singleton {α : Type} {c : Prop} [Decidable c] {x kv : α}
    (h : kv ∈ if c then [x] else []) : kv = x := by
  split at h
  · simpa using h
  · simp at h

theorem tailEntries_or_key {hostname : GoStr} {o : Resolver.LookupOracle}
    {kv : GoStr × List GoStr}
    (h : kv ∈ Resolver.cnameEntry hostname o ∨ kv ∈ Resolver.mxEntry o ∨
      kv ∈ Resolver.txtEntry o ∨ kv ∈ Resolver.nsEntry o) :
    kv.1 = gs "CNAME" ∨ kv.1 = gs "MX" ∨ kv.1 = gs "TXT" ∨ kv.1 = gs "NS" := by
  rcases h with h1 | h1 | h1 | h1
  · exact Or.inl (cnameEntry_key h1)
  · exact Or.inr (Or.inl (mxEntry_key h1))
  · exact Or.inr (Or.inr (Or.inl (txtEntry_key h1)))
  · exact Or.inr (Or.inr (Or.inr (nsEntry_key h1)))

theorem findRecords_map_tail {hostname : GoStr} {o : Resolver.LookupOracle} (k : GoStr)
    (h1 : k ≠ gs "CNAME") (h2 : k ≠ gs "MX") (h3 : k ≠ gs "TXT") (h4 : k ≠ gs "NS") :
    Resolver.findRecords
      (List.map (fun kv => (kv.1, uniqueSorted kv.2)) (Resolver.cnameEntry hostname o) ++
        (List.map (fun kv => (kv.1, uniqueSorted kv.2)) (Resolver.mxEntry o) ++
          (List.map (fun kv => (kv.1, uniqueSorted kv.2)) (Resolver.txtEntry o) ++
            List.map (fun kv => (kv.1, uniqueSorted kv.2)) (Resolver.nsEntry o)))) k = [] := by
  apply findRecords_of_keys_ne
  intro kv hkv
  simp only [List.mem_append, List.mem_map] at hkv
  rcases hkv with ⟨kv2, hm, rfl⟩ | ⟨kv2, hm, rfl⟩ | ⟨kv2, hm, rfl⟩ | ⟨kv2, hm, rfl⟩
  · show kv2.1 ≠ k
    rw [cnameEntry_key hm]
    exact Ne.symm h1
  · show kv2.1 ≠ k
    rw [mxEntry_key hm]
    exact Ne.symm h2
  · show kv2.1 ≠ k
    rw [txtEntry_key hm]
    exact Ne.symm h3
  · show kv2.1 ≠ k
    rw [nsEntry_key hm]
    exact Ne.symm h4

theorem findRecords_append_keys_ne {l1 l2 : List (GoStr × List GoStr)} {k : GoStr}
    (h : ∀ kv ∈ l1, kv.1 ≠ k) :
    Resolver.findRecords (l1 ++ l2) k = Resolver.findRecords l2 k := by
  induction l1 with
  | nil => rfl
  | cons kv rest ih =>
    obtain ⟨k2, v⟩ := kv
    rw [List.cons_append, findRecords_cons_ne (h (k2, v) (List.mem_cons_self _ _)) v _]
    exact ih (fun kv hkv => h kv (List.mem_cons_of_mem _ hkv))

/-- Claim C1: `Resolve` returns a result whose `IPAddresses` equals the
deduplicated sorted union of `DNSRecords["A"]` and `DNSRecords["AAAA"]`; every
list in the result (the IP list and each record list) is strictly ascending
(hence deduplicated) and contains no empty strings; and the `Subdomain` field
equals the trimmed queried hostname, even when the result carries an error. -/
theorem resolve_C1 (hostname : GoStr) (o : Resolver.LookupOracle) :
    (Resolver.Resolve hostname o).subdomain = trimSpace hostname ∧
    (Resolver.Resolve hostname o).ipAddresses =
      uniqueSorted (Resolver.findRecords (Resolver.Resolve hostname o).dnsRecords (gs "A")
        ++ Resolver.findRecords (Resolver.Resolve hostname o).dnsRecords (gs "AAAA")) ∧
    List.Pairwise strLtProp (Resolver.Resolve hostname o).ipAddresses ∧
    [] ∉ (Resolver.Resolve hostname o).ipAddresses ∧
    ∀ kv ∈ (Resolver.Resolve hostname o).dnsRecords,
      List.Pairwise strLtProp kv.2 ∧ [] ∉ kv.2 := by
  by_cases h : trimSpace hostname = []
  · simp only [Resolver.Resolve, if_pos h]
    refine ⟨trivial, rfl, List.Pairwise.nil, List.not_mem_nil _,
      fun kv hkv => absurd hkv (List.not_mem_nil _)⟩
  · simp only [Resolver.Resolve, if_neg h]
    have hifA : (if Resolver.aRecordsOf o ≠ [] then Resolver.aRecordsOf o else []) =
        Resolver.aRecordsOf o := by
      by_cases ha : Resolver.aRecordsOf o = []
      · rw [if_neg (by simp [ha]), ha]
      · rw [if_pos ha]
    have hifB : (if Resolver.aaaaRecordsOf o ≠ [] then Resolver.aaaaRecordsOf o else []) =
        Resolver.aaaaRecordsOf o := by
      by_cases hb : Resolver.aaaaRecordsOf o = []
      · rw [if_neg (by simp [hb]), hb]
      · rw [if_pos hb]
    rw [hifA, hifB]
    have hifIps : (if Resolver.aRecordsOf o ++ Resolver.aaaaRecordsOf o ≠ [] then
        uniqueSorted (Resolver.aRecordsOf o ++ Resolver.aaaaRecordsOf o)
        else Resolver.aRecordsOf o ++ Resolver.aaaaRecordsOf o) =
        uniqueSorted (Resolver.aRecordsOf o ++ Resolver.aaaaRecordsOf o) := by
      by_cases hi : Resolver.aRecordsOf o ++ Resolver.aaaaRecordsOf o = []
      · rw [if_neg (by simp [hi]), hi]
        rfl
      · rw [if_pos hi]
    rw [hifIps]
    refine ⟨trivial, ?_, uniqueSorted_pairwise_lt _, nil_notMem_uniqueSorted _, ?_⟩
    · simp only [List.append_assoc, List.map_append]
      have hfindA : Resolver.findRecords
          ((List.map (fun kv => (kv.1, uniqueSorted kv.2))
            (if Resolver.aRecordsOf o ≠ [] then [(gs "A", Resolver.aRecordsOf o)] else [])) ++
           ((List.map (fun kv => (kv.1, uniqueSorted kv.2))
            (if Resolver.aaaaRecordsOf o ≠ [] then [(gs "AAAA", Resolver.aaaaRecordsOf o)] else [])) ++
            (List.map (fun kv => (kv.1, uniqueSorted kv.2)) (Resolver.cnameEntry (trimSpace hostname) o) ++
              (List.map (fun kv => (kv.1, uniqueSorted kv.2)) (Resolver.mxEntry o) ++
                (List.map (fun kv => (kv.1, uniqueSorted kv.2)) (Resolver.txtEntry o) ++
                  List.map (fun kv => (kv.1, uniqueSorted kv.2)) (Resolver.nsEntry o))))))
          (gs "A") = Resolver.aRecordsOf o := by
        by_cases ha : Resolver.aRecordsOf o = []
        · rw [if_neg (by simp [ha]), ha]
          rw [List.map_nil, List.nil_append]
          rw [findRecords_append_keys_ne (fun kv hkv => by
            rw [List.mem_map] at hkv
            obtain ⟨kv2, hkv2, rfl⟩ := hkv
            show kv2.1 ≠ gs "A"
            rw [mem_ite_singleton hkv2]
            exact (by decide : (gs "AAAA" : GoStr) ≠ gs "A"))]
          exact findRecords_map_tail (gs "A") (by decide) (by decide) (by decide) (by decide)
        · rw [if_pos ha]
          exact (findRecords_cons_self _ _ _).trans (aRecordsOf_normalized o)
      have hfindB : Resolver.findRecords
          ((List.map (fun kv => (kv.1, uniqueSorted kv.2))
            (if Resolver.aRecordsOf o ≠ [] then [(gs "A", Resolver.aRecordsOf o)] else [])) ++
           ((List.map (fun kv => (kv.1, uniqueSorted kv.2))
            (if Resolver.aaaaRecordsOf o ≠ [] then [(gs "AAAA", Resolver.aaaaRecordsOf o)] else [])) ++
            (List.map (fun kv => (kv.1, uniqueSorted kv.2)) (Resolver.cnameEntry (trimSpace hostname) o) ++
              (List.map (fun kv => (kv.1, uniqueSorted kv.2)) (Resolver.mxEntry o) ++
                (List.map (fun kv => (kv.1, uniqueSorted kv.2)) (Resolver.txtEntry o) ++
                  List.map (fun kv => (kv.1, uniqueSorted kv.2)) (Resolver.nsEntry o))))))
          (gs "AAAA") = Resolver.aaaaRecordsOf o := by
        rw [findRecords_append_keys_ne (fun kv hkv => by
          rw [List.mem_map] at hkv
          obtain ⟨kv2, hkv2, rfl⟩ := hkv
          show kv2.1 ≠ gs "AAAA"
          rw [mem_ite_singleton hkv2]
          exact (by decide : (gs "A" : GoStr) ≠ gs "AAAA"))]
        by_cases hb : Resolver.aaaaRecordsOf o = []
        · rw [if_neg (by simp [hb]), hb]
          rw [List.map_nil, List.nil_append]
          exact findRecords_map_tail (gs "AAAA") (by decide) (by decide) (by decide) (by decide)
        · rw [if_pos hb]
          exact (findRecords_cons_self _ _ _).trans (aaaaRecordsOf_normalized o)
      rw [hfindA, hfindB]
    · intro kv hkv
      rw [List.mem_map] at hkv
      obtain ⟨kv2, hkv2, rfl⟩ := hkv
      exact ⟨uniqueSorted_pairwise_lt _, nil_notMem_uniqueSorted _⟩

/-- The structural error characterization of `Resolve` for a non-empty
hostname: the error field is set exactly from the accumulated lookup errors
and the emptiness of the aggregated result. -/
theorem Resolve_err_char (hostname : GoStr) (o : Resolver.LookupOracle)
    (h : ¬ trimSpace hostname = []) :
    (Resolver.Resolve hostname o).err =
      (if Resolver.resolutionErrs (trimSpace hostname) o ≠ [] ∧
          (Resolver.Resolve hostname o).ipAddresses = [] ∧
          (Resolver.Resolve hostname o).dnsRecords = [] then
        some (joinSep (gs "; ") (Resolver.resolutionErrs (trimSpace hostname) o))
      else none) := by
  simp only [Resolver.Resolve, if_neg h]

/-- If `Resolve` produced no record map at all, it produced no IP list. -/
theorem Resolve_ips_nil_of_recs_nil (hostname : GoStr) (o : Resolver.LookupOracle)
    (h : ¬ trimSpace hostname = [])
    (hr : (Resolver.Resolve hostname o).dnsRecords = []) :
    (Resolver.Resolve hostname o).ipAddresses = [] := by
  simp only [Resolver.Resolve, if_neg h] at hr ⊢
  rw [List.map_eq_nil_iff] at hr
  have hA : Resolver.aRecordsOf o = [] := by
    by_cases ha : Resolver.aRecordsOf o = []
    · exact ha
    · rw [if_pos ha] at hr
      simp at hr
  have hB : Resolver.aaaaRecordsOf o = [] := by
    by_cases hb : Resolver.aaaaRecordsOf o = []
    · exact hb
    · rw [if_pos hb] at hr
      simp at hr
  simp [hA, hB]

/-- Counterexample to claim C6 as stated: `Resolve` can return a non-nil
error although not every lookup failed. Here the address lookup fails with
"boom" while the CNAME lookup succeeds (returning the queried hostname, hence
no record), and the MX/TXT/NS lookups succeed with empty record sets; no
record is produced, so `Resolve` reports the error "boom" even though four of
the five lookups succeeded. -/
theorem resolve_C6_counterexample :
    (Resolver.Resolve (gs "www.example.com")
      { ipAddrs := .error (gs "boom"), cname := .ok (gs "www.example.com."),
        mx := .ok [], txt := .ok [], ns := .ok [] }).err = some (gs "boom") ∧
    Resolver.lookupCNAME (gs "www.example.com")
      { ipAddrs := .error (gs "boom"), cname := .ok (gs "www.example.com."),
        mx := .ok [], txt := .ok [], ns := .ok [] } = .ok [] ∧
    Resolver.lookupMX
      { ipAddrs := .error (gs "boom"), cname := .ok (gs "www.example.com."),
        mx := .ok [], txt := .ok [], ns := .ok [] } = .ok [] ∧
    Resolver.lookupTXT
      { ipAddrs := .error (gs "boom"), cname := .ok (gs "www.example.com."),
        mx := .ok [], txt := .ok [], ns := .ok [] } = .ok [] ∧
    Resolver.lookupNS
      { ipAddrs := .error (gs "boom"), cname := .ok (gs "www.example.com."),
        mx := .ok [], txt := .ok [], ns := .ok [] } = .ok [] := by
  refine ⟨?_, ?_, ?_, ?_, ?_⟩ <;> first | decide | rfl

/-- Claim C6 (amended): `Resolve` returns a non-nil error exactly when the
trimmed hostname is empty, or at least one lookup failed and no DNS record of
any type was produced (not: when *every* lookup failed); the error message is
the per-lookup error messages joined with "; "; whenever at least one record
is produced the result is returned as successful and all partial-failure
lookup errors are discarded. -/
theorem resolve_C6_amended (hostname : GoStr) (o : Resolver.LookupOracle) :
    ((Resolver.Resolve hostname o).err ≠ none ↔
      (trimSpace hostname = [] ∨
        (Resolver.resolutionErrs (trimSpace hostname) o ≠ [] ∧
          (Resolver.Resolve hostname o).dnsRecords = []))) ∧
    ((Resolver.Resolve hostname o).dnsRecords ≠ [] → (Resolver.Resolve hostname o).err = none) ∧
    (∀ e, ¬ trimSpace hostname = [] → (Resolver.Resolve hostname o).err = some e →
      e = joinSep (gs "; ") (Resolver.resolutionErrs (trimSpace hostname) o)) := by
  by_cases h : trimSpace hostname = []
  · have herr : (Resolver.Resolve hostname o).err = some (gs "empty hostname") := by
      simp only [Resolver.Resolve, if_pos h]
    have hrec : (Resolver.Resolve hostname o).dnsRecords = [] := by
      simp only [Resolver.Resolve, if_pos h]
    refine ⟨⟨fun _ => Or.inl h, fun _ => by rw [herr]; exact Option.some_ne_none _⟩, ?_, ?_⟩
    · intro hne
      exact absurd hrec hne
    · intro e hne _
      exact absurd h hne
  · have hchar := Resolve_err_char hostname o h
    by_cases hc : Resolver.resolutionErrs (trimSpace hostname) o ≠ [] ∧
        (Resolver.Resolve hostname o).dnsRecords = []
    · have hips := Resolve_ips_nil_of_recs_nil hostname o h hc.2
      rw [if_pos ⟨hc.1, hips, hc.2⟩] at hchar
      refine ⟨⟨fun _ => Or.inr hc, fun _ => by rw [hchar]; exact Option.some_ne_none _⟩, ?_, ?_⟩
      · intro hne
        exact absurd hc.2 hne
      · intro e _ hsome
        rw [hchar] at hsome
        exact (Option.some_inj.mp hsome).symm
    · have hcond : ¬ (Resolver.resolutionErrs (trimSpace hostname) o ≠ [] ∧
          (Resolver.Resolve hostname o).ipAddresses = [] ∧
          (Resolver.Resolve hostname o).dnsRecords = []) := by
        rintro ⟨h1, _, h3⟩
        exact hc ⟨h1, h3⟩
      rw [if_neg hcond] at hchar
      refine ⟨⟨fun hne => absurd hchar hne, ?_⟩, ?_, ?_⟩
      · rintro (h1 | h2)
        · exact absurd h1 h
        · exact absurd h2 hc
      · intro _
        exact hchar
      · intro e _ hsome
        rw [hchar] at hsome
        exact Option.noConfusion hsome

/-- Witness for the amended claim C6 at a concrete failing resolution. -/
theorem resolve_C6_amended_witness :
    ((Resolver.Resolve (gs "www.example.com")
      { ipAddrs := .error (gs "no route"), cname := .error (gs "timeout"),
        mx := .error (gs "refused"), txt := .error (gs "refused"),
        ns := .error (gs "refused") }).err ≠ none ↔
      (trimSpace (gs "www.example.com") = [] ∨
        (Resolver.resolutionErrs (trimSpace (gs "www.example.com"))
          { ipAddrs := .error (gs "no route"), cname := .error (gs "timeout"),
            mx := .error (gs "refused"), txt := .error (gs "refused"),
            ns := .error (gs "refused") } ≠ [] ∧
          (Resolver.Resolve (gs "www.example.com")
            { ipAddrs := .error (gs "no route"), cname := .error (gs "timeout"),
              mx := .error (gs "refused"), txt := .error (gs "refused"),
              ns := .error (gs "refused") }).dnsRecords = []))) ∧
    ((Resolver.Resolve (gs "www.example.com")
      { ipAddrs := .error (gs "no route"), cname := .error (gs "timeout"),
        mx := .error (gs "refused"), txt := .error (gs "refused"),
        ns := .error (gs "refused") }).dnsRecords ≠ [] →
      (Resolver.Resolve (gs "www.example.com")
        { ipAddrs := .error (gs "no route"), cname := .error (gs "timeout"),
          mx := .error (gs "refused"), txt := .error (gs "refused"),
          ns := .error (gs "refused") }).err = none) ∧
    (∀ e, ¬ trimSpace (gs "www.example.com") = [] →
      (Resolver.Resolve (gs "www.example.com")
        { ipAddrs := .error (gs "no route"), cname := .error (gs "timeout"),
          mx := .error (gs "refused"), txt := .error (gs "refused"),
          ns := .error (gs "refused") }).err = some e →
      e = joinSep (gs "; ") (Resolver.resolutionErrs (trimSpace (gs "www.example.com"))
        { ipAddrs := .error (gs "no route"), cname := .error (gs "timeout"),
          mx := .error (gs "refused"), txt := .error (gs "refused"),
          ns := .error (gs "refused") })) :=
  resolve_C6_amended (gs "www.example.com")
    { ipAddrs := .error (gs "no route"), cname := .error (gs "timeout"),
      mx := .error (gs "refused"), txt := .error (gs "refused"),
      ns := .error (gs "refused") }

/-! ### Claim C2: the DNS TTL cache -/

theorem assocInsert_length {α : Type} (m : List (GoStr × α)) (k : GoStr) (v : α) :
    (Dnsclient.assocInsert m k v).length ≤ m.length + 1 := by
  unfold Dnsclient.assocInsert
  split
  · rw [List.length_map]
    exact Nat.le_succ _
  · rw [List.length_append]
    exact Nat.le_refl _

theorem evictForWrite_le (entries : List (GoStr × Dnsclient.CacheEntry)) (maxEntries : Nat)
    (now : Int) : (Dnsclient.evictForWrite entries maxEntries now).length ≤ entries.length := by
  have hfil : (Dnsclient.evictExpiredLocked entries now).length ≤ entries.length :=
    List.length_filter_le _ _
  simp only [Dnsclient.evictForWrite]
  split
  · split
    · unfold Dnsclient.evictOneLocked
      rw [List.length_tail]
      omega
    · exact hfil
  · exact Nat.le_refl _

/-- Counterexample to claim C2 as stated: an entry whose expiry is *equal* to
the current time is still returned by `Get` (the code only treats
`now.After(expiry)`, i.e. strictly later observations, as expired), so "a Get
on a key whose entry has expiry ≤ now never returns that entry" fails at
`expiry = now = 5`. -/
theorem dnscache_C2_counterexample :
    (Dnsclient.dnsCacheGet
      { entries := [(Dnsclient.cacheKey (gs "h") 1,
          { records := [some (gs "r")], expiry := 5 })], maxEntries := 10 }
      (gs "h") 1 5).1 = some [some (gs "r")] ∧
    ((5 : Int) ≤ 5) := by
  constructor
  · decide
  · decide

theorem evictForWrite_full_dec (entries : List (GoStr × Dnsclient.CacheEntry))
    (maxEntries : Nat) (now : Int) (hmax : 1 ≤ maxEntries)
    (hfull : entries.length ≥ maxEntries) :
    (Dnsclient.evictForWrite entries maxEntries now).length ≤ entries.length - 1 := by
  have hfil : (Dnsclient.evictExpiredLocked entries now).length ≤ entries.length :=
    List.length_filter_le _ _
  simp only [Dnsclient.evictForWrite, if_pos hfull]
  split
  next h2 =>
    unfold Dnsclient.evictOneLocked
    rw [List.length_tail]
    omega
  next h2 =>
    omega

/-- Claim C2 (amended): a `Get` on a key whose entry has `expiry < now`
(strictly expired) never returns the entry and removes it; an entry with
`now ≤ expiry` — including the `expiry = now` boundary the original claim
miscounts — is returned. A `Set` performed while the cache holds at least
`maxEntries` entries reduces the entry count by at least one before storing
(first evicting all expired entries, then one arbitrary entry), and the cache
never grows beyond its configured maximum. -/
theorem dnscache_C2_amended (c : Dnsclient.DNSCache) (host : GoStr) (qtype : Nat)
    (records : List (Option GoStr)) (ttl now : Int) :
    (∀ e, c.entries.find? (fun kv => kv.1 = Dnsclient.cacheKey host qtype) = some e →
      (e.2.expiry < now →
        (Dnsclient.dnsCacheGet c host qtype now).1 = none ∧
        Dnsclient.cacheKey host qtype ∉
          ((Dnsclient.dnsCacheGet c host qtype now).2.entries.map Prod.fst)) ∧
      (now ≤ e.2.expiry →
        (Dnsclient.dnsCacheGet c host qtype now).1 =
          some (Dnsclient.cloneRecords e.2.records))) ∧
    (1 ≤ c.maxEntries → c.entries.length ≤ c.maxEntries →
      (Dnsclient.dnsCacheSet c host qtype records ttl now).entries.length ≤ c.maxEntries) ∧
    (1 ≤ c.maxEntries → c.entries.length ≥ c.maxEntries →
      (Dnsclient.evictForWrite c.entries c.maxEntries now).length ≤ c.entries.length - 1) := by
  refine ⟨?_, ?_, ?_⟩
  · intro e hfind
    constructor
    · intro hlt
      have hgt : now > e.2.expiry := hlt
      simp only [Dnsclient.dnsCacheGet, hfind, if_pos hgt]
      refine ⟨trivial, ?_⟩
      intro hmem
      rw [List.mem_map] at hmem
      obtain ⟨kv, hkv, hfst⟩ := hmem
      rw [List.mem_filter] at hkv
      have := hkv.2
      simp only [decide_eq_true_eq] at this
      exact this hfst
    · intro hle
      have hng : ¬ now > e.2.expiry := not_lt.mpr hle
      simp only [Dnsclient.dnsCacheGet, hfind, if_neg hng]
  · intro hmax hle
    simp only [Dnsclient.dnsCacheSet]
    split
    · exact hle
    · refine le_trans (assocInsert_length _ _ _) ?_
      by_cases hfull : c.entries.length ≥ c.maxEntries
      · have := evictForWrite_full_dec c.entries c.maxEntries now hmax hfull
        omega
      · have heq : Dnsclient.evictForWrite c.entries c.maxEntries now = c.entries := by
          simp only [Dnsclient.evictForWrite, if_neg hfull]
        rw [heq]
        omega
  · intro hmax hfull
    exact evictForWrite_full_dec c.entries c.maxEntries now hmax hfull

/-- Witness for the amended claim C2: a two-entry cache at capacity 2, with an
entry strictly expired at time 10; the hypotheses of each conjunct are
discharged at these concrete values. -/
theorem dnscache_C2_amended_witness :
    ((Dnsclient.dnsCacheGet
        { entries := [(Dnsclient.cacheKey (gs "h") 1,
            { records := [some (gs "r")], expiry := 5 }),
          (Dnsclient.cacheKey (gs "g") 1,
            { records := [some (gs "q")], expiry := 50 })], maxEntries := 2 }
        (gs "h") 1 10).1 = none ∧
      Dnsclient.cacheKey (gs "h") 1 ∉
        ((Dnsclient.dnsCacheGet
          { entries := [(Dnsclient.cacheKey (gs "h") 1,
              { records := [some (gs "r")], expiry := 5 }),
            (Dnsclient.cacheKey (gs "g") 1,
              { records := [some (gs "q")], expiry := 50 })], maxEntries := 2 }
          (gs "h") 1 10).2.entries.map Prod.fst)) ∧
    (Dnsclient.dnsCacheSet
        { entries := [(Dnsclient.cacheKey (gs "h") 1,
            { records := [some (gs "r")], expiry := 5 }),
          (Dnsclient.cacheKey (gs "g") 1,
            { records := [some (gs "q")], expiry := 50 })], maxEntries := 2 }
        (gs "x") 1 [some (gs "s")] Dnsclient.nsecond 10).entries.length ≤ 2 ∧
    (Dnsclient.evictForWrite
        [(Dnsclient.cacheKey (gs "h") 1, { records := [some (gs "r")], expiry := 5 }),
         (Dnsclient.cacheKey (gs "g") 1, { records := [some (gs "q")], expiry := 50 })]
        2 10).length ≤ 2 - 1 := by
  have h := dnscache_C2_amended
    { entries := [(Dnsclient.cacheKey (gs "h") 1,
        { records := [some (gs "r")], expiry := 5 }),
      (Dnsclient.cacheKey (gs "g") 1,
        { records := [some (gs "q")], expiry := 50 })], maxEntries := 2 }
    (gs "h") 1 [some (gs "s")] Dnsclient.nsecond 10
  have h2 := dnscache_C2_amended
    { entries := [(Dnsclient.cacheKey (gs "h") 1,
        { records := [some (gs "r")], expiry := 5 }),
      (Dnsclient.cacheKey (gs "g") 1,
        { records := [some (gs "q")], expiry := 50 })], maxEntries := 2 }
    (gs "x") 1 [some (gs "s")] Dnsclient.nsecond 10
  exact ⟨(h.1 (Dnsclient.cacheKey (gs "h") 1,
      { records := [some (gs "r")], expiry := 5 }) (by decide)).1 (by decide),
    h2.2.1 (by decide) (by decide), h.2.2 (by decide) (by decide)⟩

/-! ### Claims C9 and C10: bruteforce aggregation and worker sizing -/

/-- Claim C10: when `AutoTune` is on, `Run` sets the initial worker pool size
to exactly 50 (`minAutoTuneWorkers`) regardless of the configured `Workers`
value; when it is off, the pool starts at `Workers`, defaulting to 10 when
`Workers ≤ 0`. -/
theorem bruteforce_C10 (workers : Int) :
    Bruteforce.initialWorkers workers true = 50 ∧
    Bruteforce.initialWorkers workers false = (if workers ≤ 0 then 10 else workers) := by
  constructor
  · rfl
  · rfl

theorem collectResults_nodup (l : List Bruteforce.Result)
    (seen : List GoStr) (found : List Bruteforce.Result)
    (hnd : (found.map (fun r => r.subdomain)).Nodup)
    (hseen : ∀ r ∈ found, r.subdomain ∈ seen) :
    ((Bruteforce.collectResults seen found l).map (fun r => r.subdomain)).Nodup := by
  induction l generalizing seen found with
  | nil => exact hnd
  | cons res rest ih =>
    rw [Bruteforce.collectResults]
    by_cases h1 : toLowerStr (trimSpace res.subdomain) = []
    · rw [if_pos h1]
      exact ih seen found hnd hseen
    · rw [if_neg h1]
      by_cases h2 : toLowerStr (trimSpace res.subdomain) ∈ seen
      · rw [if_pos h2]
        exact ih seen found hnd hseen
      · rw [if_neg h2]
        refine ih _ _ ?_ ?_
        · rw [List.map_append]
          rw [List.nodup_append]
          refine ⟨hnd, by simp, ?_⟩
          intro x hx hy
          simp at hy
          rw [List.mem_map] at hx
          obtain ⟨r, hr, hrx⟩ := hx
          exact h2 (by rw [← hy, ← hrx]; exact hseen r hr)
        · intro r hr
          rcases List.mem_append.mp hr with h3 | h3
          · exact List.mem_cons_of_mem _ (hseen r h3)
          · simp at h3
            rw [h3]
            exact List.mem_cons_self _ _

/-- Claim C9: the list returned by a successful bruteforce run contains no
duplicate subdomains (deduplication is by lower-cased trimmed hostname) and
is strictly ascending by subdomain. -/
theorem bruteforce_C9 (results : List Bruteforce.Result) :
    List.Pairwise (fun a b => strLtProp a.subdomain b.subdomain)
      (Bruteforce.aggregateResults results) ∧
    ((Bruteforce.aggregateResults results).map (fun r => r.subdomain)).Nodup := by
  have hperm : (Bruteforce.aggregateResults results).Perm
      (Bruteforce.collectResults [] [] results) :=
    List.perm_insertionSort _ _
  have hnd : ((Bruteforce.aggregateResults results).map (fun r => r.subdomain)).Nodup :=
    ((hperm.map (fun r => r.subdomain)).symm).nodup
      (collectResults_nodup results [] [] (by simp) (by simp))
  have hsorted : List.Pairwise Bruteforce.bfLe (Bruteforce.aggregateResults results) :=
    @List.sorted_insertionSort _ Bruteforce.bfLe _
      ⟨fun a b => by
        unfold Bruteforce.bfLe
        by_cases h : strLtb b.subdomain a.subdomain = false
        · exact Or.inl h
        · exact Or.inr (strLtb_asymm (Bool.not_eq_false _ |>.mp h))⟩
      ⟨fun a b c h1 h2 => strLe_trans h1 h2⟩ _
  refine ⟨?_, hnd⟩
  have hne : List.Pairwise (fun a b : Bruteforce.Result => a.subdomain ≠ b.subdomain)
      (Bruteforce.aggregateResults results) := by
    have := List.pairwise_map.mp hnd
    exact this
  refine (hsorted.and hne).imp ?_
  rintro a b ⟨hle, hsne⟩
  unfold Bruteforce.bfLe at hle
  unfold strLtProp
  by_contra hlt
  exact hsne (strLtb_eq_of_both_false (Bool.not_eq_true _ |>.mp hlt) hle)

/-! ### Claim C3: the wildcard profile -/

theorem setInsert_self (l : List GoStr) (x : GoStr) : x ∈ Filters.setInsert l x := by
  unfold Filters.setInsert
  split
  next h => exact h
  next => exact List.mem_append_right _ (List.mem_singleton.mpr rfl)

theorem setInsert_mono {l : List GoStr} {x : GoStr} (y : GoStr) (h : x ∈ l) :
    x ∈ Filters.setInsert l y := by
  unfold Filters.setInsert
  split
  · exact h
  · exact List.mem_append_left _ h

theorem accumIPStep_mono_v4 {a : Filters.ProfAcc} {x : GoStr} (ip : GoStr)
    (h : x ∈ a.2.1) : x ∈ (Filters.accumIPStep a ip).2.1 := by
  simp only [Filters.accumIPStep]
  split
  · exact h
  · dsimp only
    split
    · exact setInsert_mono _ h
    · exact h

theorem foldIP_mono_v4 (ips : List GoStr) (a : Filters.ProfAcc) {x : GoStr}
    (h : x ∈ a.2.1) : x ∈ (ips.foldl Filters.accumIPStep a).2.1 := by
  induction ips generalizing a with
  | nil => exact h
  | cons ip rest ih => exact ih _ (accumIPStep_mono_v4 ip h)

theorem accumProfile_mono_v4 {a : Filters.ProfAcc} {x : GoStr} (res : Resolver.Result)
    (h : x ∈ a.2.1) : x ∈ (Filters.accumProfile a res).2.1 :=
  foldIP_mono_v4 _ _ h

theorem foldProfile_mono_v4 (rs : List Resolver.Result) (a : Filters.ProfAcc) {x : GoStr}
    (h : x ∈ a.2.1) : x ∈ (rs.foldl Filters.accumProfile a).2.1 := by
  induction rs generalizing a with
  | nil => exact h
  | cons r rest ih => exact ih _ (accumProfile_mono_v4 r h)

theorem accumIPStep_insert_v4 (a : Filters.ProfAcc) (ip : GoStr)
    (hne : trimSpace ip ≠ []) (hpfx : Filters.ipv4Pfx (trimSpace ip) ≠ []) :
    Filters.ipv4Pfx (trimSpace ip) ∈ (Filters.accumIPStep a ip).2.1 := by
  simp only [Filters.accumIPStep]
  rw [if_neg hne]
  dsimp only
  rw [if_pos hpfx]
  exact setInsert_self _ _

theorem accumProfile_insert_v4 (a : Filters.ProfAcc) (r : Resolver.Result) {ip : GoStr}
    (hip : ip ∈ r.ipAddresses) (hne : trimSpace ip ≠ [])
    (hpfx : Filters.ipv4Pfx (trimSpace ip) ≠ []) :
    Filters.ipv4Pfx (trimSpace ip) ∈ (Filters.accumProfile a r).2.1 := by
  obtain ⟨s, t, hst⟩ := List.append_of_mem hip
  show Filters.ipv4Pfx (trimSpace ip) ∈ (r.ipAddresses.foldl Filters.accumIPStep a).2.1
  rw [hst, List.foldl_append, List.foldl_cons]
  exact foldIP_mono_v4 t _ (accumIPStep_insert_v4 _ ip hne hpfx)

theorem buildProfile_v4 {results : List Resolver.Result} {r : Resolver.Result}
    (hr : r ∈ results) (hsucc : ¬ (r.ipAddresses = [] ∧ r.dnsRecords = []))
    {ip : GoStr} (hip : ip ∈ r.ipAddresses) (hne : trimSpace ip ≠ [])
    (hpfx : Filters.ipv4Pfx (trimSpace ip) ≠ []) :
    (Filters.buildWildcardProfile results).active = true ∧
    Filters.ipv4Pfx (trimSpace ip) ∈ (Filters.buildWildcardProfile results).ipv4Prefixes := by
  have hmem : r ∈ results.filter
      (fun r => decide (¬ (r.ipAddresses = [] ∧ r.dnsRecords = []))) := by
    rw [List.mem_filter]
    exact ⟨hr, decide_eq_true hsucc⟩
  have hne2 : results.filter
      (fun r => decide (¬ (r.ipAddresses = [] ∧ r.dnsRecords = []))) ≠ [] :=
    List.ne_nil_of_mem hmem
  simp only [Filters.buildWildcardProfile]
  rw [if_neg hne2]
  refine ⟨rfl, ?_⟩
  show Filters.ipv4Pfx (trimSpace ip) ∈
    ((results.filter _).foldl Filters.accumProfile ([], [], [], [])).2.1
  obtain ⟨s, t, hst⟩ := List.append_of_mem hmem
  rw [hst, List.foldl_append, List.foldl_cons]
  exact foldProfile_mono_v4 t _ (accumProfile_insert_v4 _ r hip hne hpfx)

theorem Matches_of_ip (p : Filters.WildcardProfile) (res : Resolver.Result)
    (hact : p.active = true) {probe : GoStr} (hmem : probe ∈ res.ipAddresses)
    (hne : trimSpace probe ≠ [])
    (hhit : trimSpace probe ∈ p.ips ∨
      (Filters.ipv4Pfx (trimSpace probe) ≠ [] ∧
        Filters.ipv4Pfx (trimSpace probe) ∈ p.ipv4Prefixes) ∨
      (Filters.ipv6Pfx (trimSpace probe) ≠ [] ∧
        Filters.ipv6Pfx (trimSpace probe) ∈ p.ipv6Prefixes)) :
    Filters.Matches p res = true := by
  have hg2 : ¬ (p.ips = [] ∧ p.cnames = [] ∧ p.ipv4Prefixes = [] ∧ p.ipv6Prefixes = []) := by
    rintro ⟨h1, _, h3, h4⟩
    rcases hhit with hh | ⟨_, hh⟩ | ⟨_, hh⟩
    · rw [h1] at hh
      exact List.not_mem_nil _ hh
    · rw [h3] at hh
      exact List.not_mem_nil _ hh
    · rw [h4] at hh
      exact List.not_mem_nil _ hh
  have hg3 : p.ips ≠ [] ∨ p.ipv4Prefixes ≠ [] ∨ p.ipv6Prefixes ≠ [] := by
    rcases hhit with hh | ⟨_, hh⟩ | ⟨_, hh⟩
    · exact Or.inl (List.ne_nil_of_mem hh)
    · exact Or.inr (Or.inl (List.ne_nil_of_mem hh))
    · exact Or.inr (Or.inr (List.ne_nil_of_mem hh))
  simp only [Filters.Matches]
  rw [if_neg (fun hn => hn hact), if_neg hg2, if_pos hg3]
  have hany : (res.ipAddresses.any (fun ip =>
      let trimmed := trimSpace ip
      if trimmed = [] then false
      else if trimmed ∈ p.ips then true
      else if Filters.ipv4Pfx trimmed ≠ [] ∧ Filters.ipv4Pfx trimmed ∈ p.ipv4Prefixes then true
      else if Filters.ipv6Pfx trimmed ≠ [] ∧ Filters.ipv6Pfx trimmed ∈ p.ipv6Prefixes then true
      else false)) = true := by
    rw [List.any_eq_true]
    refine ⟨probe, hmem, ?_⟩
    dsimp only
    rw [if_neg hne]
    by_cases h1 : trimSpace probe ∈ p.ips
    · rw [if_pos h1]
    · rw [if_neg h1]
      by_cases h2 : Filters.ipv4Pfx (trimSpace probe) ≠ [] ∧
          Filters.ipv4Pfx (trimSpace probe) ∈ p.ipv4Prefixes
      · rw [if_pos h2]
      · rw [if_neg h2]
        by_cases h3 : Filters.ipv6Pfx (trimSpace probe) ≠ [] ∧
            Filters.ipv6Pfx (trimSpace probe) ∈ p.ipv6Prefixes
        · rw [if_pos h3]
        · rcases hhit with hh | hh | hh
          · exact absurd hh h1
          · exact absurd hh h2
          · exact absurd hh h3
  rw [hany]
  rw [if_pos rfl]

theorem Matches_of_cname (p : Filters.WildcardProfile) (res : Resolver.Result)
    (hact : p.active = true) {cname : GoStr}
    (hm : cname ∈ Resolver.findRecords res.dnsRecords (gs "CNAME"))
    (hcn : toLowerStr (trimSpace cname) ∈ p.cnames) :
    Filters.Matches p res = true := by
  have hg2 : ¬ (p.ips = [] ∧ p.cnames = [] ∧ p.ipv4Prefixes = [] ∧ p.ipv6Prefixes = []) := by
    rintro ⟨_, h2, _, _⟩
    rw [h2] at hcn
    exact List.not_mem_nil _ hcn
  have hcne : p.cnames ≠ [] := List.ne_nil_of_mem hcn
  simp only [Filters.Matches]
  rw [if_neg (fun hn => hn hact), if_neg hg2]
  split
  next =>
    split
    · rfl
    · rw [List.any_eq_true]
      exact ⟨cname, hm, decide_eq_true hcn⟩
  next =>
    split
    · rfl
    · rw [List.any_eq_true]
      exact ⟨cname, hm, decide_eq_true hcn⟩

/-- Claim C3: an active wildcard profile matches a resolution whenever some
exact profile IP equals a resolved IP, some resolved IP's IPv4 `/24` or IPv6
first-64-bit prefix lies in the stored prefix sets, or some CNAME of the
result lies in the stored CNAME set; in particular a profile built from a
sample set S matches every result containing an IPv4 address whose `/24`
prefix equals the `/24` prefix of an IP observed in S. -/
theorem wildcard_C3 (p : Filters.WildcardProfile) (res : Resolver.Result)
    (results : List Resolver.Result) (r : Resolver.Result) (ip probe : GoStr) :
    (p.active = true → probe ∈ res.ipAddresses → trimSpace probe ≠ [] →
      (trimSpace probe ∈ p.ips ∨
        (Filters.ipv4Pfx (trimSpace probe) ≠ [] ∧
          Filters.ipv4Pfx (trimSpace probe) ∈ p.ipv4Prefixes) ∨
        (Filters.ipv6Pfx (trimSpace probe) ≠ [] ∧
          Filters.ipv6Pfx (trimSpace probe) ∈ p.ipv6Prefixes)) →
      Filters.Matches p res = true) ∧
    (p.active = true → ∀ cname ∈ Resolver.findRecords res.dnsRecords (gs "CNAME"),
      toLowerStr (trimSpace cname) ∈ p.cnames → Filters.Matches p res = true) ∧
    (r ∈ results → ¬ (r.ipAddresses = [] ∧ r.dnsRecords = []) → ip ∈ r.ipAddresses →
      trimSpace ip ≠ [] → Filters.ipv4Pfx (trimSpace ip) ≠ [] →
      probe ∈ res.ipAddresses → trimSpace probe ≠ [] →
      Filters.ipv4Pfx (trimSpace probe) = Filters.ipv4Pfx (trimSpace ip) →
      Filters.Matches (Filters.buildWildcardProfile results) res = true) := by
  refine ⟨?_, ?_, ?_⟩
  · intro hact hmem hne hhit
    exact Matches_of_ip p res hact hmem hne hhit
  · intro hact cname hm hcn
    exact Matches_of_cname p res hact hm hcn
  · intro hr hsucc hip hne hpfx hprobe hpne hpeq
    obtain ⟨hact, hv4⟩ := buildProfile_v4 hr hsucc hip hne hpfx
    refine Matches_of_ip _ res hact hprobe hpne (Or.inr (Or.inl ⟨?_, ?_⟩))
    · rw [hpeq]
      exact hpfx
    · rw [hpeq]
      exact hv4

/-- Witness for claim C3: a profile built from one successful probe that
observed `203.0.113.10` matches a result resolving to `203.0.113.55`, which
shares the `/24` prefix `203.0.113`. -/
theorem wildcard_C3_witness :
    Filters.Matches
      (Filters.buildWildcardProfile
        [{ subdomain := gs "a", ipAddresses := [gs "203.0.113.10"],
           dnsRecords := [], err := none }])
      { subdomain := gs "b", ipAddresses := [gs "203.0.113.55"],
        dnsRecords := [], err := none } = true :=
  (wildcard_C3
    { active := true, ips := [], ipv4Prefixes := [], ipv6Prefixes := [], cnames := [] }
    { subdomain := gs "b", ipAddresses := [gs "203.0.113.55"],
      dnsRecords := [], err := none }
    [{ subdomain := gs "a", ipAddresses := [gs "203.0.113.10"],
       dnsRecords := [], err := none }]
    { subdomain := gs "a", ipAddresses := [gs "203.0.113.10"],
      dnsRecords := [], err := none }
    (gs "203.0.113.10") (gs "203.0.113.55")).2.2
    (by decide) (by decide) (by decide) (by decide) (by decide)
    (by decide) (by decide) (by decide)

/-! ### Claim C4: the token-bucket rate limiter -/

theorem refillLocked_rate (l : Ratelimit.Limiter) (now : ℚ) :
    (Ratelimit.refillLocked l now).rate = l.rate := by
  simp only [Ratelimit.refillLocked]
  split
  · rfl
  · split
    · rfl
    · rfl

theorem refillLocked_capacity (l : Ratelimit.Limiter) (now : ℚ) :
    (Ratelimit.refillLocked l now).capacity = l.capacity := by
  simp only [Ratelimit.refillLocked]
  split
  · rfl
  · split
    · rfl
    · rfl

theorem refillLocked_tokens_le (l : Ratelimit.Limiter) (now : ℚ)
    (hrate : 0 ≤ l.rate) (hlf : l.lastFill ≤ now) :
    (Ratelimit.refillLocked l now).tokens ≤ l.tokens + l.rate * (now - l.lastFill) := by
  have hnn : 0 ≤ l.rate * (now - l.lastFill) :=
    mul_nonneg hrate (by linarith)
  simp only [Ratelimit.refillLocked]
  split
  next hlt => linarith
  next hlt =>
    split
    next hz => linarith
    next hz =>
      dsimp only
      split
      next hcap =>
        have : l.capacity < l.tokens + (now - l.lastFill) * l.rate := hcap
        nlinarith [this]
      next hcap => nlinarith

theorem refillLocked_tokens_cap (l : Ratelimit.Limiter) (now : ℚ)
    (hcap : l.tokens ≤ l.capacity) :
    (Ratelimit.refillLocked l now).tokens ≤ l.capacity := by
  simp only [Ratelimit.refillLocked]
  split
  · exact hcap
  · split
    · exact hcap
    · dsimp only
      split
      next => exact le_refl _
      next h => linarith [not_lt.mp h]

theorem refillLocked_tokens_nonneg (l : Ratelimit.Limiter) (now : ℚ)
    (hrate : 0 ≤ l.rate) (htok : 0 ≤ l.tokens) (hc : 0 ≤ l.capacity) :
    0 ≤ (Ratelimit.refillLocked l now).tokens := by
  simp only [Ratelimit.refillLocked]
  split
  · exact htok
  next hlt =>
    split
    · exact htok
    next hz =>
      dsimp only
      split
      next => exact hc
      next =>
        have he : 0 ≤ now - l.lastFill := by linarith [not_lt.mp hlt]
        nlinarith

theorem refillLocked_lastFill (l : Ratelimit.Limiter) (now : ℚ)
    (hlf : l.lastFill ≤ now) : (Ratelimit.refillLocked l now).lastFill = now := by
  simp only [Ratelimit.refillLocked]
  split
  next hlt => rfl
  next hlt =>
    split
    next hz =>
      have : now = l.lastFill := by linarith
      rw [this]
    next hz => rfl

theorem refillLocked_noRefill (l : Ratelimit.Limiter) (now : ℚ)
    (h : now < l.lastFill) :
    (Ratelimit.refillLocked l now).tokens = l.tokens ∧
    (Ratelimit.refillLocked l now).lastFill = now := by
  simp only [Ratelimit.refillLocked, if_pos h]
  exact ⟨trivial, trivial⟩

theorem refillLocked_lastFill_always (l : Ratelimit.Limiter) (now : ℚ) :
    (Ratelimit.refillLocked l now).lastFill = now := by
  rcases le_or_lt l.lastFill now with h | h
  · exact refillLocked_lastFill l now h
  · exact (refillLocked_noRefill l now h).2

theorem refillLocked_tokens_cap_any (l : Ratelimit.Limiter) (now : ℚ)
    (hcap : l.tokens ≤ l.capacity) :
    (Ratelimit.refillLocked l now).tokens ≤ l.capacity :=
  refillLocked_tokens_cap l now hcap

theorem allowStep_cases (l : Ratelimit.Limiter) (now : ℚ) :
    ((Ratelimit.allowStep l now).2 = false ∧
      (Ratelimit.allowStep l now).1 = Ratelimit.refillLocked l now ∧
      (Ratelimit.refillLocked l now).tokens < 1) ∨
    ((Ratelimit.allowStep l now).2 = true ∧
      (Ratelimit.allowStep l now).1 =
        { Ratelimit.refillLocked l now with
          tokens := (Ratelimit.refillLocked l now).tokens - 1 } ∧
      1 ≤ (Ratelimit.refillLocked l now).tokens) := by
  simp only [Ratelimit.allowStep]
  split
  next h => exact Or.inl ⟨rfl, rfl, h⟩
  next h => exact Or.inr ⟨rfl, rfl, not_lt.mp h⟩

theorem allowStep_fields (l : Ratelimit.Limiter) (now : ℚ) :
    (Ratelimit.allowStep l now).1.rate = l.rate ∧
    (Ratelimit.allowStep l now).1.capacity = l.capacity ∧
    (Ratelimit.allowStep l now).1.lastFill = now := by
  rcases allowStep_cases l now with ⟨_, heq, _⟩ | ⟨_, heq, _⟩ <;> rw [heq]
  · exact ⟨refillLocked_rate l now, refillLocked_capacity l now,
      refillLocked_lastFill_always l now⟩
  · exact ⟨refillLocked_rate l now, refillLocked_capacity l now,
      refillLocked_lastFill_always l now⟩

theorem allowStep_invariant (l : Ratelimit.Limiter) (now : ℚ)
    (hrate : 0 ≤ l.rate) (htok : 0 ≤ l.tokens) (hcap : l.tokens ≤ l.capacity) :
    0 ≤ (Ratelimit.allowStep l now).1.tokens ∧
    (Ratelimit.allowStep l now).1.tokens ≤ (Ratelimit.allowStep l now).1.capacity := by
  have hc0 : 0 ≤ l.capacity := le_trans htok hcap
  have hrc := refillLocked_tokens_cap l now hcap
  have hrn := refillLocked_tokens_nonneg l now hrate htok hc0
  have hcapf := (allowStep_fields l now).2.1
  rcases allowStep_cases l now with ⟨_, heq, hlt⟩ | ⟨_, heq, hge⟩ <;> rw [hcapf] <;> rw [heq]
  · exact ⟨hrn, hrc⟩
  · constructor
    · show (0:ℚ) ≤ (Ratelimit.refillLocked l now).tokens - 1
      linarith
    · show (Ratelimit.refillLocked l now).tokens - 1 ≤ l.capacity
      linarith

theorem allowCount_cons (l : Ratelimit.Limiter) (t : ℚ) (ts : List ℚ) :
    Ratelimit.allowCount l (t :: ts) =
      (if (Ratelimit.allowStep l t).2 then 1 else 0) +
        Ratelimit.allowCount (Ratelimit.allowStep l t).1 ts := by
  simp only [Ratelimit.allowCount]

theorem allowCount_le (ts : List ℚ) (l : Ratelimit.Limiter)
    (hrate : 0 ≤ l.rate) (htok : 0 ≤ l.tokens) (hc0 : 0 ≤ l.capacity)
    (hchain : ts.Pairwise (· ≤ ·)) (hhead : ∀ t ∈ ts, l.lastFill ≤ t) :
    (Ratelimit.allowCount l ts : ℚ) ≤
      l.tokens + l.rate * (ts.getLastD l.lastFill - l.lastFill) := by
  induction ts generalizing l with
  | nil =>
    simp [Ratelimit.allowCount]
    exact htok
  | cons t rest ih =>
    have hlf : l.lastFill ≤ t := hhead t (List.mem_cons_self _ _)
    have hrle := refillLocked_tokens_le l t hrate hlf
    have hrn := refillLocked_tokens_nonneg l t hrate htok hc0
    have hfields := allowStep_fields l t
    rw [allowCount_cons, List.getLastD_cons]
    have hstep : ∃ c : ℚ, (c = 0 ∨ c = 1) ∧
        ((if (Ratelimit.allowStep l t).2 then (1:ℚ) else 0) = c) ∧
        (Ratelimit.allowStep l t).1.tokens = (Ratelimit.refillLocked l t).tokens - c ∧
        0 ≤ (Ratelimit.allowStep l t).1.tokens := by
      rcases allowStep_cases l t with ⟨hb, heq, hlt⟩ | ⟨hb, heq, hge⟩
      · exact ⟨0, Or.inl rfl, by rw [hb]; simp, by rw [heq]; ring, by rw [heq]; exact hrn⟩
      · refine ⟨1, Or.inr rfl, by rw [hb]; simp, by rw [heq], ?_⟩
        rw [heq]
        show (0:ℚ) ≤ (Ratelimit.refillLocked l t).tokens - 1
        linarith
    obtain ⟨c, hc01, hcval, htokeq, htoknn⟩ := hstep
    have hih := ih (Ratelimit.allowStep l t).1
      (by rw [hfields.1]; exact hrate)
      htoknn
      (by rw [hfields.2.1]; exact hc0)
      (List.pairwise_cons.mp hchain).2
      (by
        intro t2 ht2
        rw [hfields.2.2]
        exact (List.pairwise_cons.mp hchain).1 t2 ht2)
    rw [hfields.1, hfields.2.2] at hih
    push_cast
    rw [hcval]
    have : (Ratelimit.allowCount (Ratelimit.allowStep l t).1 rest : ℚ) ≤
        (Ratelimit.refillLocked l t).tokens - c +
          l.rate * (rest.getLastD t - t) := by
      rw [← htokeq]
      exact hih
    have hfinal : (Ratelimit.refillLocked l t).tokens ≤
        l.tokens + l.rate * (t - l.lastFill) := hrle
    nlinarith [this, hfinal]

theorem getLastD_mem_of_ne {α : Type} (l : List α) (d : α) (h : l ≠ []) :
    l.getLastD d ∈ l := by
  rw [List.getLastD_eq_getLast?, List.getLast?_eq_getLast l h]
  simp [List.getLast_mem]

/-- Claim C4: for a token-bucket limiter state with `0 ≤ tokens ≤ capacity`
(as established at construction, where `capacity = tokens = max(rate, 1)`),
the number of successful token consumptions (`Allow` returning true plus
`Acquire` returning ok) over any monotone sequence of clock observations
inside an interval `[t0, t0 + d]` is at most `capacity + rate·d`; each step
keeps the token count within `[0, capacity]`; a clock observation earlier
than the last refill time causes no refill; and `New` produces exactly the
`capacity = tokens = max(rate, 1)` state for positive rates. -/
theorem ratelimit_C4 (l : Ratelimit.Limiter) (ts : List ℚ) (t0 d now now2 : ℚ)
    (hrate : 0 ≤ l.rate) (htok0 : 0 ≤ l.tokens) (htokc : l.tokens ≤ l.capacity)
    (hd : 0 ≤ d)
    (hchain : ts.Pairwise (· ≤ ·)) (hmem : ∀ t ∈ ts, t0 ≤ t ∧ t ≤ t0 + d) :
    ((Ratelimit.allowCount l ts : ℚ) ≤ l.capacity + l.rate * d) ∧
    (0 ≤ (Ratelimit.allowStep l now).1.tokens ∧
      (Ratelimit.allowStep l now).1.tokens ≤ (Ratelimit.allowStep l now).1.capacity) ∧
    (now2 < l.lastFill →
      (Ratelimit.refillLocked l now2).tokens = l.tokens ∧
      (Ratelimit.refillLocked l now2).lastFill = now2) ∧
    (∀ r now3 : ℚ, 0 < r → Ratelimit.newLimiter r now3 =
      some { rate := r, capacity := max r 1, tokens := max r 1, lastFill := now3 }) := by
  have hc0 : (0:ℚ) ≤ l.capacity := le_trans htok0 htokc
  refine ⟨?_, allowStep_invariant l now hrate htok0 htokc,
    fun h => refillLocked_noRefill l now2 h, ?_⟩
  · rcases ts with _ | ⟨t, rest⟩
    · have h0 : Ratelimit.allowCount l [] = 0 := rfl
      rw [h0]
      push_cast
      nlinarith [mul_nonneg hrate hd]
    · have hmemt := hmem t (List.mem_cons_self _ _)
      have hrc := refillLocked_tokens_cap l t htokc
      have hrn := refillLocked_tokens_nonneg l t hrate htok0 hc0
      have hfields := allowStep_fields l t
      rw [allowCount_cons]
      have hlast : rest.getLastD t ≤ t0 + d := by
        by_cases hrest : rest = []
        · rw [hrest]
          exact hmemt.2
        · exact (hmem _ (List.mem_cons_of_mem t (getLastD_mem_of_ne rest t hrest))).2
      have hratemul : l.rate * (rest.getLastD t - t) ≤ l.rate * d := by
        apply mul_le_mul_of_nonneg_left _ hrate
        linarith [hmemt.1]
      have hstep : ∃ c : ℚ, (c = 0 ∨ c = 1) ∧
          ((if (Ratelimit.allowStep l t).2 then (1:ℚ) else 0) = c) ∧
          (Ratelimit.allowStep l t).1.tokens ≤ l.capacity - c ∧
          0 ≤ (Ratelimit.allowStep l t).1.tokens := by
        rcases allowStep_cases l t with ⟨hb, heq, hlt⟩ | ⟨hb, heq, hge⟩
        · exact ⟨0, Or.inl rfl, by rw [hb]; simp, by rw [heq]; linarith, by rw [heq]; exact hrn⟩
        · refine ⟨1, Or.inr rfl, by rw [hb]; simp, ?_, ?_⟩
          · rw [heq]
            show (Ratelimit.refillLocked l t).tokens - 1 ≤ l.capacity - 1
            linarith
          · rw [heq]
            show (0:ℚ) ≤ (Ratelimit.refillLocked l t).tokens - 1
            linarith
      obtain ⟨c, hc01, hcval, htokle, htoknn⟩ := hstep
      have hih := allowCount_le rest (Ratelimit.allowStep l t).1
        (by rw [hfields.1]; exact hrate)
        htoknn
        (by rw [hfields.2.1]; exact hc0)
        (List.pairwise_cons.mp hchain).2
        (by
          intro t2 ht2
          rw [hfields.2.2]
          exact (List.pairwise_cons.mp hchain).1 t2 ht2)
      rw [hfields.1, hfields.2.2] at hih
      push_cast
      rw [hcval]
      nlinarith [hih, htokle, hratemul]
  · intro r now3 hr
    simp only [Ratelimit.newLimiter, if_neg (not_le.mpr hr)]

/-- Witness for claim C4: a limiter with rate 1 and capacity 1, observed
twice at time 0 inside the interval `[0, 0]`. -/
theorem ratelimit_C4_witness :
    ((Ratelimit.allowCount ⟨1, 1, 1, 0⟩ [0, 0] : ℚ) ≤
      (⟨1, 1, 1, 0⟩ : Ratelimit.Limiter).capacity +
        (⟨1, 1, 1, 0⟩ : Ratelimit.Limiter).rate * 0) ∧
    (0 ≤ (Ratelimit.allowStep ⟨1, 1, 1, 0⟩ 2).1.tokens ∧
      (Ratelimit.allowStep ⟨1, 1, 1, 0⟩ 2).1.tokens ≤
        (Ratelimit.allowStep ⟨1, 1, 1, 0⟩ 2).1.capacity) ∧
    ((-1 : ℚ) < (⟨1, 1, 1, 0⟩ : Ratelimit.Limiter).lastFill →
      (Ratelimit.refillLocked ⟨1, 1, 1, 0⟩ (-1)).tokens =
        (⟨1, 1, 1, 0⟩ : Ratelimit.Limiter).tokens ∧
      (Ratelimit.refillLocked ⟨1, 1, 1, 0⟩ (-1)).lastFill = -1) ∧
    (∀ r now3 : ℚ, 0 < r → Ratelimit.newLimiter r now3 =
      some { rate := r, capacity := max r 1, tokens := max r 1, lastFill := now3 }) :=
  ratelimit_C4 ⟨1, 1, 1, 0⟩ [0, 0] 0 0 2 (-1)
    (by decide) (by decide) (by decide) (by decide)
    (by simp) (by simp)

/-! ### Claims C5 and C8: the exporter -/

/-- Counterexample to claim C5 as stated: with batch size 1, two records and
an always-200 server, the exporter issues *three* POSTs, not two — one
non-final batch per record (batch ids 1 and 2) and then an empty final
payload from `Flush`; the second POST carries `final = false`, not
`final = true`. -/
theorem exporter_C5_counterexample :
    ((Oxg3n.twoRecordRun (fun _ _ => true)
      { subdomain := gs "a.example.com", source := gs "dns", timestamp := gs "t1",
        ipAddresses := [], dnsRecords := [], httpServices := [] }
      { subdomain := gs "b.example.com", source := gs "dns", timestamp := gs "t2",
        ipAddresses := [], dnsRecords := [], httpServices := [] }
      (gs "now")).1).length = 3 ∧
    (((Oxg3n.twoRecordRun (fun _ _ => true)
      { subdomain := gs "a.example.com", source := gs "dns", timestamp := gs "t1",
        ipAddresses := [], dnsRecords := [], httpServices := [] }
      { subdomain := gs "b.example.com", source := gs "dns", timestamp := gs "t2",
        ipAddresses := [], dnsRecords := [], httpServices := [] }
      (gs "now")).1).map (fun p => p.final)) = [false, false, true] ∧
    (((Oxg3n.twoRecordRun (fun _ _ => true)
      { subdomain := gs "a.example.com", source := gs "dns", timestamp := gs "t1",
        ipAddresses := [], dnsRecords := [], httpServices := [] }
      { subdomain := gs "b.example.com", source := gs "dns", timestamp := gs "t2",
        ipAddresses := [], dnsRecords := [], httpServices := [] }
      (gs "now")).1).map (fun p => p.batchID)) = [1, 2, 2] := by
  refine ⟨?_, ?_, ?_⟩ <;> rfl

/-- Claim C5 (amended): with batch size 1, two added records with distinct
lower-cased subdomains, and a server that always returns HTTP 200, exactly
three POSTs are observed: the first with `final = false`, `batch_id = 1` and
one record; the second with `final = false`, `batch_id = 2` and one record;
the third (from `Flush`) with `final = true`, `batch_id = 2` and no records.
The summary returned by `Flush` is
`{total_records = 2, unique_subdomains = 2, batches_sent = 2}`. -/
theorem exporter_C5_amended (server : Oxg3n.Payload → Nat → Bool)
    (r1 r2 : Oxg3n.Rec) (now : GoStr)
    (hS : ∀ p n, server p n = true)
    (hsub : toLowerStr r1.subdomain ≠ toLowerStr r2.subdomain) :
    ((Oxg3n.twoRecordRun server r1 r2 now).1.map (fun p => p.final) =
      [false, false, true]) ∧
    ((Oxg3n.twoRecordRun server r1 r2 now).1.map (fun p => p.batchID) = [1, 2, 2]) ∧
    ((Oxg3n.twoRecordRun server r1 r2 now).1.map (fun p => p.records.length) =
      [1, 1, 0]) ∧
    ((Oxg3n.twoRecordRun server r1 r2 now).2.map (fun s => s.totalRecords) = some 2) ∧
    ((Oxg3n.twoRecordRun server r1 r2 now).2.map (fun s => s.uniqueSubdomains) = some 2) ∧
    ((Oxg3n.twoRecordRun server r1 r2 now).2.map (fun s => s.batchesSent) = some 2) := by
  have hsub2 : ¬ toLowerStr r2.subdomain = toLowerStr r1.subdomain := Ne.symm hsub
  refine ⟨?_, ?_, ?_, ?_, ?_, ?_⟩ <;>
    simp [Oxg3n.twoRecordRun, Oxg3n.newExporter, Oxg3n.addRecord, Oxg3n.flush,
      Oxg3n.sendCurrentBatch, Oxg3n.postPayload, Oxg3n.pendingPayload,
      Oxg3n.buildSummary, Oxg3n.setAdd, hS, hsub2]

/-- Witness for the amended claim C5 at two concrete records and the
always-200 server. -/
theorem exporter_C5_amended_witness :
    ((Oxg3n.twoRecordRun (fun _ _ => true)
      { subdomain := gs "a.example.com", source := gs "dns", timestamp := gs "t1",
        ipAddresses := [], dnsRecords := [], httpServices := [] }
      { subdomain := gs "b.example.com", source := gs "dns", timestamp := gs "t2",
        ipAddresses := [], dnsRecords := [], httpServices := [] }
      (gs "now")).1.map (fun p => p.final) = [false, false, true]) ∧
    ((Oxg3n.twoRecordRun (fun _ _ => true)
      { subdomain := gs "a.example.com", source := gs "dns", timestamp := gs "t1",
        ipAddresses := [], dnsRecords := [], httpServices := [] }
      { subdomain := gs "b.example.com", source := gs "dns", timestamp := gs "t2",
        ipAddresses := [], dnsRecords := [], httpServices := [] }
      (gs "now")).1.map (fun p => p.batchID) = [1, 2, 2]) ∧
    ((Oxg3n.twoRecordRun (fun _ _ => true)
      { subdomain := gs "a.example.com", source := gs "dns", timestamp := gs "t1",
        ipAddresses := [], dnsRecords := [], httpServices := [] }
      { subdomain := gs "b.example.com", source := gs "dns", timestamp := gs "t2",
        ipAddresses := [], dnsRecords := [], httpServices := [] }
      (gs "now")).1.map (fun p => p.records.length) = [1, 1, 0]) ∧
    ((Oxg3n.twoRecordRun (fun _ _ => true)
      { subdomain := gs "a.example.com", source := gs "dns", timestamp := gs "t1",
        ipAddresses := [], dnsRecords := [], httpServices := [] }
      { subdomain := gs "b.example.com", source := gs "dns", timestamp := gs "t2",
        ipAddresses := [], dnsRecords := [], httpServices := [] }
      (gs "now")).2.map (fun s => s.totalRecords) = some 2) ∧
    ((Oxg3n.twoRecordRun (fun _ _ => true)
      { subdomain := gs "a.example.com", source := gs "dns", timestamp := gs "t1",
        ipAddresses := [], dnsRecords := [], httpServices := [] }
      { subdomain := gs "b.example.com", source := gs "dns", timestamp := gs "t2",
        ipAddresses := [], dnsRecords := [], httpServices := [] }
      (gs "now")).2.map (fun s => s.uniqueSubdomains) = some 2) ∧
    ((Oxg3n.twoRecordRun (fun _ _ => true)
      { subdomain := gs "a.example.com", source := gs "dns", timestamp := gs "t1",
        ipAddresses := [], dnsRecords := [], httpServices := [] }
      { subdomain := gs "b.example.com", source := gs "dns", timestamp := gs "t2",
        ipAddresses := [], dnsRecords := [], httpServices := [] }
      (gs "now")).2.map (fun s => s.batchesSent) = some 2) :=
  exporter_C5_amended (fun _ _ => true)
    { subdomain := gs "a.example.com", source := gs "dns", timestamp := gs "t1",
      ipAddresses := [], dnsRecords := [], httpServices := [] }
    { subdomain := gs "b.example.com", source := gs "dns", timestamp := gs "t2",
      ipAddresses := [], dnsRecords := [], httpServices := [] }
    (gs "now") (fun _ _ => rfl) (by decide)

/-- Claim C8: when a batch POST fails after all three attempts, the
exporter's observable state is exactly the state before the attempt — the
batch counter is rolled back, the pending batch is retained and no summary
counter is mutated — and the send reports failure after the three observed
POST attempts. -/
theorem exporter_C8 (server : Oxg3n.Payload → Nat → Bool) (e : Oxg3n.Exporter)
    (final : Bool) (hb : e.batch ≠ [])
    (hfail : ∀ n, server (Oxg3n.pendingPayload e final) n = false) :
    Oxg3n.sendCurrentBatch server e final =
      (e, [Oxg3n.pendingPayload e final, Oxg3n.pendingPayload e final,
        Oxg3n.pendingPayload e final], false) := by
  rcases e with ⟨dom, batch, bsize, tr, rr, us, ui, bsent, fs⟩
  simp only [Oxg3n.sendCurrentBatch, if_neg hb]
  simp [Oxg3n.postPayload, hfail]

/-- Witness for claim C8: a one-record exporter against a server that always
fails. -/
theorem exporter_C8_witness :
    Oxg3n.sendCurrentBatch (fun _ _ => false)
      ({ domain := gs "example.com"
         batch := [{ subdomain := gs "a.example.com"
                     source := gs "dns"
                     timestamp := gs "t1"
                     ipAddresses := []
                     dnsRecords := []
                     httpServices := [] }]
         batchSize := 1
         totalRecords := 1
         resolvedRecords := 0
         uniqueSubdomains := [gs "a.example.com"]
         uniqueIPs := []
         batchesSent := 0
         finalSent := false }) false =
      (({ domain := gs "example.com"
          batch := [{ subdomain := gs "a.example.com"
                      source := gs "dns"
                      timestamp := gs "t1"
                      ipAddresses := []
                      dnsRecords := []
                      httpServices := [] }]
          batchSize := 1
          totalRecords := 1
          resolvedRecords := 0
          uniqueSubdomains := [gs "a.example.com"]
          uniqueIPs := []
          batchesSent := 0
          finalSent := false }),
       [Oxg3n.pendingPayload
          ({ domain := gs "example.com"
             batch := [{ subdomain := gs "a.example.com"
                         source := gs "dns"
                         timestamp := gs "t1"
                         ipAddresses := []
                         dnsRecords := []
                         httpServices := [] }]
             batchSize := 1
             totalRecords := 1
             resolvedRecords := 0
             uniqueSubdomains := [gs "a.example.com"]
             uniqueIPs := []
             batchesSent := 0
             finalSent := false }) false,
        Oxg3n.pendingPayload
          ({ domain := gs "example.com"
             batch := [{ subdomain := gs "a.example.com"
                         source := gs "dns"
                         timestamp := gs "t1"
                         ipAddresses := []
                         dnsRecords := []
                         httpServices := [] }]
             batchSize := 1
             totalRecords := 1
             resolvedRecords := 0
             uniqueSubdomains := [gs "a.example.com"]
             uniqueIPs := []
             batchesSent := 0
             finalSent := false }) false,
        Oxg3n.pendingPayload
          ({ domain := gs "example.com"
             batch := [{ subdomain := gs "a.example.com"
                         source := gs "dns"
                         timestamp := gs "t1"
                         ipAddresses := []
                         dnsRecords := []
                         httpServices := [] }]
             batchSize := 1
             totalRecords := 1
             resolvedRecords := 0
             uniqueSubdomains := [gs "a.example.com"]
             uniqueIPs := []
             batchesSent := 0
             finalSent := false }) false], false) :=
  exporter_C8 (fun _ _ => false)
    ({ domain := gs "example.com"
       batch := [{ subdomain := gs "a.example.com"
                   source := gs "dns"
                   timestamp := gs "t1"
                   ipAddresses := []
                   dnsRecords := []
                   httpServices := [] }]
       batchSize := 1
       totalRecords := 1
       resolvedRecords := 0
       uniqueSubdomains := [gs "a.example.com"]
       uniqueIPs := []
       batchesSent := 0
       finalSent := false }) false (by decide) (fun _ => rfl)

/-! ### Lemmas for the diff-normalization helpers (`cmd/nitro/main.go`) -/

theorem dropWhile_map_comm {p : Char → Bool} {f : Char → Char}
    (h : ∀ c, p (f c) = p c) (l : GoStr) :
    (l.map f).dropWhile p = (l.dropWhile p).map f := by
  induction l with
  | nil => rfl
  | cons c cs ih =>
    simp only [List.map_cons, List.dropWhile_cons, h c]
    by_cases hc : p c = true
    · rw [if_pos hc, if_pos hc]
      exact ih
    · rw [if_neg hc, if_neg hc]
      rfl

theorem trimSpace_map_comm {f : Char → Char} (h : ∀ c, goSpace (f c) = goSpace c)
    (s : GoStr) : trimSpace (s.map f) = (trimSpace s).map f := by
  unfold trimSpace
  rw [dropWhile_map_comm h, ← List.map_reverse, dropWhile_map_comm h, ← List.map_reverse]

theorem trimSpace_toLower (s : GoStr) :
    trimSpace (toLowerStr s) = toLowerStr (trimSpace s) :=
  trimSpace_map_comm goSpace_toLower s

theorem trimSpace_toUpper (s : GoStr) :
    trimSpace (toUpperStr s) = toUpperStr (trimSpace s) :=
  trimSpace_map_comm goSpace_toUpper s

theorem toLowerStr_idem (s : GoStr) : toLowerStr (toLowerStr s) = toLowerStr s := by
  unfold toLowerStr
  rw [List.map_map]
  exact List.map_congr_left (fun c _ => charLower_idem c)

theorem toUpperStr_idem (s : GoStr) : toUpperStr (toUpperStr s) = toUpperStr s := by
  unfold toUpperStr
  rw [List.map_map]
  exact List.map_congr_left (fun c _ => charUpper_idem c)

theorem lowerTrim_idem (s : GoStr) :
    toLowerStr (trimSpace (toLowerStr (trimSpace s))) = toLowerStr (trimSpace s) := by
  rw [trimSpace_toLower, trimSpace_idem, toLowerStr_idem]

theorem upperTrim_idem (s : GoStr) :
    toUpperStr (trimSpace (toUpperStr (trimSpace s))) = toUpperStr (trimSpace s) := by
  rw [trimSpace_toUpper, trimSpace_idem, toUpperStr_idem]

theorem dedupeSortedStrings_idem (l : List GoStr) :
    dedupeSortedStrings (dedupeSortedStrings l) = dedupeSortedStrings l := by
  simp only [dedupeSortedStrings_eq_uniqueSorted]
  exact uniqueSorted_idem l

theorem dedupTrimAux_exists_src {seen l : List GoStr} {x : GoStr}
    (h : x ∈ dedupTrimAux seen l) : ∃ v ∈ l, x = trimSpace v := by
  induction l generalizing seen with
  | nil => simp [dedupTrimAux] at h
  | cons v vs ih =>
    rw [dedupTrimAux] at h
    by_cases h1 : trimSpace v = []
    · rw [if_pos h1] at h
      obtain ⟨w, hw, he⟩ := ih h
      exact ⟨w, List.mem_cons_of_mem _ hw, he⟩
    · rw [if_neg h1] at h
      by_cases h2 : trimSpace v ∈ seen
      · rw [if_pos h2] at h
        obtain ⟨w, hw, he⟩ := ih h
        exact ⟨w, List.mem_cons_of_mem _ hw, he⟩
      · rw [if_neg h2] at h
        rcases List.mem_cons.mp h with h3 | h3
        · exact ⟨v, List.mem_cons_self _ _, h3⟩
        · obtain ⟨w, hw, he⟩ := ih h3
          exact ⟨w, List.mem_cons_of_mem _ hw, he⟩

theorem dedupe_exists_src {l : List GoStr} {x : GoStr}
    (h : x ∈ dedupeSortedStrings l) : ∃ v ∈ l, x = trimSpace v := by
  rw [dedupeSortedStrings_eq_uniqueSorted] at h
  exact dedupTrimAux_exists_src ((uniqueSorted_perm l).subset h)

theorem splitChar_ne_nil (sep : Char) (s : GoStr) : splitChar sep s ≠ [] := by
  cases s with
  | nil => simp [splitChar]
  | cons c rest =>
    rw [splitChar]
    by_cases h : c = sep
    · rw [if_pos h]; simp
    · rw [if_neg h]; simp

theorem mem_splitChar_no_sep {sep : Char} {s p : GoStr}
    (h : p ∈ splitChar sep s) : sep ∉ p := by
  induction s generalizing p with
  | nil =>
    simp [splitChar] at h
    simp [h]
  | cons c rest ih =>
    rw [splitChar] at h
    by_cases hc : c = sep
    · rw [if_pos hc] at h
      rcases List.mem_cons.mp h with h1 | h1
      · simp [h1]
      · exact ih h1
    · rw [if_neg hc] at h
      rcases List.mem_cons.mp h with h1 | h1
      · subst h1
        intro hmem
        rcases List.mem_cons.mp hmem with h2 | h2
        · exact hc h2.symm
        · cases hr : splitChar sep rest with
          | nil => exact splitChar_ne_nil sep rest hr
          | cons q qs =>
            rw [hr] at h2
            exact ih (by rw [hr]; exact List.mem_cons_self q qs) h2
      · cases hr : splitChar sep rest with
        | nil => exact absurd hr (splitChar_ne_nil sep rest)
        | cons q qs =>
          rw [hr] at h1
          exact ih (by rw [hr]; exact List.mem_cons_of_mem q h1)

theorem splitChar_no_sep {sep : Char} {s : GoStr} (h : sep ∉ s) :
    splitChar sep s = [s] := by
  induction s with
  | nil => rfl
  | cons c rest ih =>
    rw [splitChar]
    have hc : c ≠ sep := fun he => h (he ▸ List.mem_cons_self c rest)
    rw [if_neg hc, ih (fun hm => h (List.mem_cons_of_mem c hm))]
    rfl

theorem splitChar_append_sep {sep : Char} {x : GoStr} (rest : GoStr) (h : sep ∉ x) :
    splitChar sep (x ++ sep :: rest) = x :: splitChar sep rest := by
  induction x with
  | nil =>
    rw [List.nil_append, splitChar, if_pos rfl]
  | cons c x' ih =>
    have hc : c ≠ sep := fun he => h (he ▸ List.mem_cons_self c x')
    rw [List.cons_append, splitChar,
      ih (fun hm => h (List.mem_cons_of_mem c hm)), if_neg hc]
    rfl

theorem splitChar_joinSep {sep : Char} {parts : List GoStr} (h0 : parts ≠ [])
    (h : ∀ p ∈ parts, sep ∉ p) :
    splitChar sep (joinSep [sep] parts) = parts := by
  induction parts with
  | nil => exact absurd rfl h0
  | cons p rest ih =>
    cases rest with
    | nil =>
      rw [joinSep]
      exact splitChar_no_sep (h p (List.mem_cons_self _ _))
    | cons q qs =>
      rw [joinSep]
      have : p ++ [sep] ++ joinSep [sep] (q :: qs) = p ++ sep :: joinSep [sep] (q :: qs) := by
        rw [List.append_assoc]
        rfl
      rw [this, splitChar_append_sep _ (h p (List.mem_cons_self _ _)),
        ih (List.cons_ne_nil q qs) (fun r hr => h r (List.mem_cons_of_mem _ hr))]
      exact fun hh => List.cons_ne_nil q qs hh

theorem joinSep_head? {sep : GoStr} {p0 : GoStr} (rest : List GoStr) (h : p0 ≠ []) :
    (joinSep sep (p0 :: rest)).head? = p0.head? := by
  cases rest with
  | nil => rfl
  | cons q qs =>
    cases p0 with
    | nil => exact absurd rfl h
    | cons c cs => rfl

theorem trimSpace_joinSep_ne_nil {parts : List GoStr} {p0 : GoStr} {rest : List GoStr}
    (hp : parts = p0 :: rest) (ht : trimSpace p0 = p0) (hne : p0 ≠ []) :
    trimSpace (joinSep [','] parts) ≠ [] := by
  subst hp
  intro hcontra
  rw [trimSpace_eq_nil_iff] at hcontra
  cases p0 with
  | nil => exact hne rfl
  | cons c0 p0' =>
    have hc0 : goSpace c0 = false := @trimSpace_head? (c0 :: p0') c0 (by rw [ht]; rfl)
    have hh := @joinSep_head? [','] (c0 :: p0') rest hne
    have hc0mem : c0 ∈ joinSep [','] ((c0 :: p0') :: rest) := by
      cases hj : joinSep [','] ((c0 :: p0') :: rest) with
      | nil => rw [hj] at hh; exact absurd hh.symm (by simp)
      | cons d ds =>
        rw [hj] at hh
        have : d = c0 := by
          have := hh.symm
          simp at this
          exact this.symm
        rw [this]
        exact List.mem_cons_self _ _
    rw [hcontra c0 hc0mem] at hc0
    exact Bool.noConfusion hc0

theorem normalizeSources_idem (s : GoStr) :
    MainCmd.normalizeSources (MainCmd.normalizeSources s) = MainCmd.normalizeSources s := by
  by_cases h0 : trimSpace s = []
  · have h1 : MainCmd.normalizeSources s = [] := by
      simp only [MainCmd.normalizeSources]
      rw [if_pos h0]
    rw [h1]
    rfl
  · have h1 : MainCmd.normalizeSources s =
        joinSep [','] (dedupeSortedStrings (splitChar ',' s)) := by
      simp only [MainCmd.normalizeSources]
      rw [if_neg h0]
    by_cases hparts : dedupeSortedStrings (splitChar ',' s) = []
    · rw [h1, hparts]
      rfl
    · cases hp : dedupeSortedStrings (splitChar ',' s) with
      | nil => exact absurd hp hparts
      | cons p0 rest =>
        have hp0 := @uniqueSorted_mem (splitChar ',' s) p0
          (by rw [← dedupeSortedStrings_eq_uniqueSorted, hp]; exact List.mem_cons_self _ _)
        have hnc : ∀ p ∈ dedupeSortedStrings (splitChar ',' s), ',' ∉ p := by
          intro p hpmem hcomma
          obtain ⟨v, hv, he⟩ := dedupe_exists_src hpmem
          exact mem_splitChar_no_sep hv (trimSpace_subset (he ▸ hcomma))
        have htrim : trimSpace (joinSep [','] (dedupeSortedStrings (splitChar ',' s))) ≠ [] := by
          rw [hp]
          exact trimSpace_joinSep_ne_nil rfl hp0.1 hp0.2
        have hsplit : splitChar ',' (joinSep [','] (dedupeSortedStrings (splitChar ',' s))) =
            dedupeSortedStrings (splitChar ',' s) :=
          splitChar_joinSep hparts hnc
        rw [h1]
        simp only [MainCmd.normalizeSources]
        rw [if_neg htrim, hsplit, dedupeSortedStrings_idem]

theorem mem_assocInsert {α : Type} {m : List (GoStr × α)} {k : GoStr} {v : α}
    {kv : GoStr × α} (h : kv ∈ Dnsclient.assocInsert m k v) : kv ∈ m ∨ kv = (k, v) := by
  unfold Dnsclient.assocInsert at h
  split at h
  · obtain ⟨kv0, hm, heq⟩ := List.mem_map.mp h
    by_cases h0 : kv0.1 = k
    · rw [if_pos h0] at heq
      exact Or.inr heq.symm
    · rw [if_neg h0] at heq
      exact Or.inl (heq ▸ hm)
  · rcases List.mem_append.mp h with h1 | h1
    · exact Or.inl h1
    · exact Or.inr (List.mem_singleton.mp h1)

theorem assocInsert_keys_nodup {α : Type} {m : List (GoStr × α)} (k : GoStr) (v : α)
    (h : (m.map Prod.fst).Nodup) : ((Dnsclient.assocInsert m k v).map Prod.fst).Nodup := by
  unfold Dnsclient.assocInsert
  split
  · rw [List.map_map]
    have he : m.map (Prod.fst ∘ fun kv => if kv.1 = k then (k, v) else kv) =
        m.map Prod.fst := by
      refine List.map_congr_left (fun kv _ => ?_)
      by_cases hk : kv.1 = k
      · simp only [Function.comp, if_pos hk]
        exact hk.symm
      · simp only [Function.comp, if_neg hk]
    rw [he]
    exact h
  · rename_i hc
    have hk : k ∉ m.map Prod.fst := by
      intro hmem
      obtain ⟨kv, hkv, he⟩ := List.mem_map.mp hmem
      exact hc (List.any_eq_true.mpr ⟨kv, hkv, by simp [he]⟩)
    rw [List.map_append]
    simp [List.nodup_append, h, hk]

theorem assocInsert_notMem_eq {α : Type} {m : List (GoStr × α)} {k : GoStr} (v : α)
    (h : k ∉ m.map Prod.fst) : Dnsclient.assocInsert m k v = m ++ [(k, v)] := by
  unfold Dnsclient.assocInsert
  split
  · rename_i hc
    rw [List.any_eq_true] at hc
    obtain ⟨kv, hm, he⟩ := hc
    have : kv.1 = k := of_decide_eq_true he
    exact absurd (List.mem_map.mpr ⟨kv, hm, this⟩) h
  · rfl

theorem foldl_assocInsert_keys_nodup {α β : Type} (f : β → GoStr) (g : β → α) :
    ∀ (l : List β) (acc : List (GoStr × α)), (acc.map Prod.fst).Nodup →
    ((l.foldl (fun m x => Dnsclient.assocInsert m (f x) (g x)) acc).map Prod.fst).Nodup := by
  intro l
  induction l with
  | nil => exact fun acc h => h
  | cons x t ih =>
    intro acc h
    rw [List.foldl_cons]
    exact ih _ (assocInsert_keys_nodup (f x) (g x) h)

theorem mem_foldl_assocInsert {α β : Type} (f : β → GoStr) (g : β → α) :
    ∀ (l : List β) (acc : List (GoStr × α)) (kv : GoStr × α),
    kv ∈ l.foldl (fun m x => Dnsclient.assocInsert m (f x) (g x)) acc →
    kv ∈ acc ∨ ∃ x ∈ l, kv = (f x, g x) := by
  intro l
  induction l with
  | nil => exact fun acc kv h => Or.inl h
  | cons x t ih =>
    intro acc kv h
    rw [List.foldl_cons] at h
    rcases ih _ kv h with h1 | h1
    · rcases mem_assocInsert h1 with h2 | h2
      · exact Or.inl h2
      · exact Or.inr ⟨x, List.mem_cons_self _ _, h2⟩
    · obtain ⟨y, hy, he⟩ := h1
      exact Or.inr ⟨y, List.mem_cons_of_mem _ hy, he⟩

theorem foldl_assocInsert_fixed {α : Type} (f : GoStr → GoStr) (g : α → α) :
    ∀ (l acc : List (GoStr × α)),
    (∀ kv ∈ l, f kv.1 = kv.1 ∧ g kv.2 = kv.2) →
    ((acc ++ l).map Prod.fst).Nodup →
    l.foldl (fun m kv => Dnsclient.assocInsert m (f kv.1) (g kv.2)) acc = acc ++ l := by
  intro l
  induction l with
  | nil =>
    intro acc _ _
    simp
  | cons kv t ih =>
    intro acc hfix hnd
    rw [List.foldl_cons, (hfix kv (List.mem_cons_self _ _)).1,
      (hfix kv (List.mem_cons_self _ _)).2]
    have hnotin : kv.1 ∉ acc.map Prod.fst := by
      intro hmem
      rw [List.map_append] at hnd
      have hdisj := List.disjoint_of_nodup_append hnd
      exact hdisj hmem (by exact List.mem_cons_self _ _)
    rw [assocInsert_notMem_eq kv.2 hnotin]
    have hstep := ih (acc ++ [kv])
      (fun x hx => hfix x (List.mem_cons_of_mem _ hx))
      (by rw [List.append_assoc]; exact hnd)
    rw [hstep, List.append_assoc]
    rfl

theorem dnsNormalize_idem (l : List (GoStr × List GoStr)) :
    ((l.foldl (fun m kv => Dnsclient.assocInsert m (toUpperStr (trimSpace kv.1))
        (dedupeSortedStrings kv.2)) []).foldl
      (fun m kv => Dnsclient.assocInsert m (toUpperStr (trimSpace kv.1))
        (dedupeSortedStrings kv.2)) []) =
    l.foldl (fun m kv => Dnsclient.assocInsert m (toUpperStr (trimSpace kv.1))
        (dedupeSortedStrings kv.2)) [] := by
  have hfix : ∀ kv ∈ l.foldl (fun m kv => Dnsclient.assocInsert m (toUpperStr (trimSpace kv.1))
      (dedupeSortedStrings kv.2)) ([] : List (GoStr × List GoStr)),
      toUpperStr (trimSpace kv.1) = kv.1 ∧ dedupeSortedStrings kv.2 = kv.2 := by
    intro kv hkv
    rcases mem_foldl_assocInsert (fun kv : GoStr × List GoStr => toUpperStr (trimSpace kv.1))
      (fun kv : GoStr × List GoStr => dedupeSortedStrings kv.2) l [] kv hkv with h1 | h1
    · exact absurd h1 (List.not_mem_nil kv)
    · obtain ⟨x, _, he⟩ := h1
      rw [he]
      exact ⟨upperTrim_idem x.1, dedupeSortedStrings_idem x.2⟩
  have hnd : (((l.foldl (fun m kv => Dnsclient.assocInsert m (toUpperStr (trimSpace kv.1))
      (dedupeSortedStrings kv.2)) ([] : List (GoStr × List GoStr)))).map Prod.fst).Nodup :=
    foldl_assocInsert_keys_nodup _ _ l [] List.nodup_nil
  have := foldl_assocInsert_fixed (fun k => toUpperStr (trimSpace k))
    (fun v : List GoStr => dedupeSortedStrings v)
    (l.foldl (fun m kv => Dnsclient.assocInsert m (toUpperStr (trimSpace kv.1))
      (dedupeSortedStrings kv.2)) []) [] hfix (by simpa using hnd)
  simpa using this

theorem svcLe_total (a b : Oxg3n.HTTPService) : MainCmd.svcLe a b ∨ MainCmd.svcLe b a := by
  unfold MainCmd.svcLe MainCmd.svcLtb
  by_cases h : a.url = b.url
  · rw [if_pos h.symm, if_pos h]
    simp only [decide_eq_false_iff_not, not_lt]
    omega
  · rw [if_neg (fun hh => h hh.symm), if_neg h]
    cases hl : strLtb a.url b.url with
    | false => exact Or.inr rfl
    | true => exact Or.inl (strLtb_asymm hl)

theorem svcLe_trans {a b c : Oxg3n.HTTPService} (h1 : MainCmd.svcLe a b)
    (h2 : MainCmd.svcLe b c) : MainCmd.svcLe a c := by
  unfold MainCmd.svcLe MainCmd.svcLtb at h1 h2 ⊢
  by_cases hab : b.url = a.url
  · rw [if_pos hab] at h1
    by_cases hbc : c.url = b.url
    · rw [if_pos hbc] at h2
      rw [if_pos (hbc.trans hab)]
      simp only [decide_eq_false_iff_not, not_lt] at h1 h2 ⊢
      omega
    · rw [if_neg hbc] at h2
      rw [if_neg (fun hh : c.url = a.url => hbc (hh.trans hab.symm)), ← hab]
      exact h2
  · rw [if_neg hab] at h1
    by_cases hbc : c.url = b.url
    · rw [if_pos hbc] at h2
      rw [if_neg (fun hh : c.url = a.url => hab (hbc.symm.trans hh)), hbc]
      exact h1
    · rw [if_neg hbc] at h2
      by_cases hca : c.url = a.url
      · exfalso
        have h2x : strLtb a.url b.url = false := hca ▸ h2
        exact hab (strLtb_eq_of_both_false h1 h2x)
      · rw [if_neg hca]
        exact strLe_trans h1 h2

theorem normSvc_idem (s : Oxg3n.HTTPService) :
    MainCmd.normSvc (MainCmd.normSvc s) = MainCmd.normSvc s := by
  simp only [MainCmd.normSvc, lowerTrim_idem, trimSpace_idem, trimSpace_nil]

theorem httpNormalize_idem (l : List Oxg3n.HTTPService) :
    List.insertionSort MainCmd.svcLe
      ((List.insertionSort MainCmd.svcLe (l.map MainCmd.normSvc)).map MainCmd.normSvc) =
    List.insertionSort MainCmd.svcLe (l.map MainCmd.normSvc) := by
  have hmap : (List.insertionSort MainCmd.svcLe (l.map MainCmd.normSvc)).map MainCmd.normSvc =
      List.insertionSort MainCmd.svcLe (l.map MainCmd.normSvc) := by
    have hfix : ∀ s ∈ List.insertionSort MainCmd.svcLe (l.map MainCmd.normSvc),
        MainCmd.normSvc s = s := by
      intro s hs
      have hs2 : s ∈ l.map MainCmd.normSvc :=
        (List.perm_insertionSort MainCmd.svcLe (l.map MainCmd.normSvc)).subset hs
      obtain ⟨x, _, he⟩ := List.mem_map.mp hs2
      rw [← he]
      exact normSvc_idem x
    calc (List.insertionSort MainCmd.svcLe (l.map MainCmd.normSvc)).map MainCmd.normSvc
        = (List.insertionSort MainCmd.svcLe (l.map MainCmd.normSvc)).map id :=
          List.map_congr_left (fun s hs => hfix s hs)
      _ = _ := List.map_id _
  rw [hmap]
  exact List.Sorted.insertionSort_eq
    (@List.sorted_insertionSort _ MainCmd.svcLe _ ⟨svcLe_total⟩
      ⟨fun _ _ _ => svcLe_trans⟩ _)

theorem mem_zip_self {α : Type} {l : List α} {p : α × α} (h : p ∈ l.zip l) :
    p.1 = p.2 := by
  induction l with
  | nil => simp at h
  | cons x xs ih =>
    rw [List.zip_cons_cons] at h
    rcases List.mem_cons.mp h with h1 | h1
    · rw [h1]
    · exact ih h1

theorem equalStringSlices_self (l : List GoStr) :
    MainCmd.equalStringSlices l l = true := by
  simp only [MainCmd.equalStringSlices, decide_eq_true_eq]
  refine ⟨trivial, ?_⟩
  rw [List.all_eq_true]
  intro p hp
  simp [mem_zip_self hp]

theorem httpServicesEqual_self (s : Oxg3n.HTTPService) :
    MainCmd.httpServicesEqual s s = true := by
  simp [MainCmd.httpServicesEqual]

theorem assoc_find?_self {α : Type} {l : List (GoStr × α)} {kv : GoStr × α}
    (hn : (l.map Prod.fst).Nodup) (h : kv ∈ l) :
    l.find? (fun kv2 => kv2.1 = kv.1) = some kv := by
  induction l with
  | nil => simp at h
  | cons x t ih =>
    rcases List.mem_cons.mp h with h1 | h1
    · subst h1
      exact List.find?_cons_of_pos _ (by simp)
    · have hne : x.1 ≠ kv.1 := by
        rw [List.map_cons, List.nodup_cons] at hn
        intro he
        exact hn.1 (he ▸ List.mem_map.mpr ⟨kv, h1, rfl⟩)
      rw [List.find?_cons_of_neg _ (by simp [hne])]
      exact ih (by rw [List.map_cons, List.nodup_cons] at hn; exact hn.2) h1

theorem normalized_dns_keys_nodup (r : MainCmd.Record) :
    (((MainCmd.normalizeDiffRecord r).dnsRecords).map Prod.fst).Nodup := by
  simp only [MainCmd.normalizeDiffRecord]
  split
  · exact foldl_assocInsert_keys_nodup _ _ _ [] List.nodup_nil
  · exact List.nodup_nil

theorem normalizeDiffRecord_idem (r : MainCmd.Record) :
    MainCmd.normalizeDiffRecord (MainCmd.normalizeDiffRecord r) =
      MainCmd.normalizeDiffRecord r := by
  simp only [MainCmd.normalizeDiffRecord, MainCmd.Record.mk.injEq]
  refine ⟨lowerTrim_idem _, dedupeSortedStrings_idem _, normalizeSources_idem _, trivial,
    ?_, ?_, trivial⟩
  · by_cases hd : (if r.dnsRecords ≠ [] then
        List.foldl (fun m kv => Dnsclient.assocInsert m (toUpperStr (trimSpace kv.1))
          (dedupeSortedStrings kv.2)) [] r.dnsRecords else []) = []
    · rw [hd]
      simp
    · rw [if_pos hd]
      by_cases hr : r.dnsRecords = []
      · exact absurd (by rw [if_neg (fun hh : r.dnsRecords ≠ [] => hh hr)]) hd
      · rw [if_pos hr]
        exact dnsNormalize_idem r.dnsRecords
  · by_cases hh : (if r.httpServices ≠ [] then
        List.insertionSort MainCmd.svcLe (List.map MainCmd.normSvc r.httpServices)
      else []) = []
    · rw [hh]
      simp
    · rw [if_pos hh]
      by_cases hr : r.httpServices = []
      · exact absurd (by rw [if_neg (fun hx : r.httpServices ≠ [] => hx hr)]) hh
      · rw [if_pos hr]
        exact httpNormalize_idem r.httpServices

theorem diffRecordsEqual_of_norm {a b : MainCmd.Record}
    (h : MainCmd.normalizeDiffRecord a = MainCmd.normalizeDiffRecord b) :
    MainCmd.diffRecordsEqual a b = true := by
  simp only [MainCmd.diffRecordsEqual]
  rw [← h, decide_eq_true_eq]
  refine ⟨rfl, rfl, equalStringSlices_self _, rfl, ?_, rfl, ?_⟩
  · rw [List.all_eq_true]
    intro kv hkv
    rw [assoc_find?_self (normalized_dns_keys_nodup a) hkv]
    simp [equalStringSlices_self]
  · rw [List.all_eq_true]
    intro p hp
    rw [mem_zip_self hp]
    simp [httpServicesEqual_self]

/-- Claim C7: diff-record normalization is idempotent — normalizing a
normalized record changes nothing — and normalization determines diff
equality: two records with equal normal forms are reported equal by
`diffRecordsEqual`. -/
theorem maincmd_C7 (r r1 r2 : MainCmd.Record)
    (h : MainCmd.normalizeDiffRecord r1 = MainCmd.normalizeDiffRecord r2) :
    MainCmd.normalizeDiffRecord (MainCmd.normalizeDiffRecord r) =
      MainCmd.normalizeDiffRecord r ∧
    MainCmd.diffRecordsEqual r1 r2 = true :=
  ⟨normalizeDiffRecord_idem r, diffRecordsEqual_of_norm h⟩

/-- Witness for claim C7: two concrete records that differ only in timestamp,
change marker and duplicate IP order have equal normal forms, so they are
diff-equal, and normalization of the first is idempotent. -/
theorem maincmd_C7_witness :
    MainCmd.normalizeDiffRecord (MainCmd.normalizeDiffRecord
      { subdomain := gs "b"
        ipAddresses := [gs "2", gs "1"]
        source := gs "dns"
        timestamp := gs "t1"
        dnsRecords := []
        httpServices := []
        change := gs "new" }) =
      MainCmd.normalizeDiffRecord
      { subdomain := gs "b"
        ipAddresses := [gs "2", gs "1"]
        source := gs "dns"
        timestamp := gs "t1"
        dnsRecords := []
        httpServices := []
        change := gs "new" } ∧
    MainCmd.diffRecordsEqual
      { subdomain := gs "b"
        ipAddresses := [gs "2", gs "1"]
        source := gs "dns"
        timestamp := gs "t1"
        dnsRecords := []
        httpServices := []
        change := gs "new" }
      { subdomain := gs "b"
        ipAddresses := [gs "1", gs "2", gs "1"]
        source := gs "dns"
        timestamp := gs "t2"
        dnsRecords := []
        httpServices := []
        change := [] } = true :=
  maincmd_C7
    { subdomain := gs "b"
      ipAddresses := [gs "2", gs "1"]
      source := gs "dns"
      timestamp := gs "t1"
      dnsRecords := []
      httpServices := []
      change := gs "new" }
    { subdomain := gs "b"
      ipAddresses := [gs "2", gs "1"]
      source := gs "dns"
      timestamp := gs "t1"
      dnsRecords := []
      httpServices := []
      change := gs "new" }
    { subdomain := gs "b"
      ipAddresses := [gs "1", gs "2", gs "1"]
      source := gs "dns"
      timestamp := gs "t2"
      dnsRecords := []
      httpServices := []
      change := [] }
    (by decide)
